import Mathlib

/-!
Verification of the CA-bundle injecting mutating admission webhook
(src/app.py) against its specification.

The webhook receives an AdmissionReview request, decides from a trigger
annotation whether to inject a CA-bundle volume and volume mounts into a
pod document, provisions the backing ConfigMap (read-then-create, with
the bundle fetched over HTTP on first creation), and answers with a
base64-encoded JSON Patch.

Embedding choices:
- JSON documents are a shallow inductive tree.  Python dict objects are
  modelled as canonically sorted association lists (dicts are unordered
  string-keyed maps as far as the jsonpatch library is concerned; the
  sorted list is the canonical representative).  The well-formedness
  predicate wfJ states that every object node is sorted by key.
- The mutate handler is embedded as a pure function of the request
  object together with the responses of its two external collaborators
  (the remote bundle fetch and the cluster API); Python exceptions are
  an explicit error type.
- The jsonpatch library is an external dependency whose source is not
  part of this repository; the patch encoder (diff) and patch
  application are modelled from the specification (RFC-6902-style
  add/remove/replace operations, empty patch on equal documents,
  deterministic order-preserving traversal).
-/

set_option maxHeartbeats 1000000

/-- JSON-like document values.  Objects are canonically sorted
association lists from keys to values. -/
inductive JVal where
  | null : JVal
  | bool : Bool → JVal
  | num : Int → JVal
  | str : String → JVal
  | arr : List JVal → JVal
  | obj : List (String × JVal) → JVal
deriving Repr

-- Boolean structural equality on documents, and the derived
-- decidable equality instance.
mutual

def beqJ : JVal → JVal → Bool
  | .null, .null => true
  | .bool a, .bool b => a == b
  | .num a, .num b => a == b
  | .str a, .str b => a == b
  | .arr xs, .arr ys => beqArr xs ys
  | .obj xs, .obj ys => beqFields xs ys
  | _, _ => false

def beqArr : List JVal → List JVal → Bool
  | [], [] => true
  | x :: xs, y :: ys => beqJ x y && beqArr xs ys
  | _, _ => false

def beqFields : List (String × JVal) → List (String × JVal) → Bool
  | [], [] => true
  | (k1, v1) :: xs, (k2, v2) :: ys => k1 == k2 && beqJ v1 v2 && beqFields xs ys
  | _, _ => false

end

mutual

theorem beqJ_iff : ∀ a b : JVal, beqJ a b = true ↔ a = b
  | .null, b => by cases b <;> simp [beqJ]
  | .bool a, b => by cases b <;> simp [beqJ]
  | .num a, b => by cases b <;> simp [beqJ]
  | .str a, b => by cases b <;> simp [beqJ]
  | .arr xs, b => by
      cases b <;> simp [beqJ]
      exact beqArr_iff xs _
  | .obj xs, b => by
      cases b <;> simp [beqJ]
      exact beqFields_iff xs _

theorem beqArr_iff : ∀ xs ys : List JVal, beqArr xs ys = true ↔ xs = ys
  | [], ys => by cases ys <;> simp [beqArr]
  | x :: xs, ys => by
      cases ys with
      | nil => simp [beqArr]
      | cons y ys => simp [beqArr, beqJ_iff x y, beqArr_iff xs ys]

theorem beqFields_iff : ∀ xs ys : List (String × JVal), beqFields xs ys = true ↔ xs = ys
  | [], ys => by cases ys <;> simp [beqFields]
  | (k1, v1) :: xs, ys => by
      cases ys with
      | nil => simp [beqFields]
      | cons p ys =>
          cases p with
          | mk k2 v2 =>
            simp [beqFields, beqJ_iff v1 v2, beqFields_iff xs ys, and_assoc]

end

instance : DecidableEq JVal := fun a b =>
  if h : beqJ a b = true then isTrue ((beqJ_iff a b).mp h)
  else isFalse (fun he => h ((beqJ_iff a b).mpr he))

/-- Strict order on characters by code point. -/
def charLt (c d : Char) : Bool := c.toNat < d.toNat

theorem charLt_irrefl (c : Char) : charLt c c = false := by
  simp [charLt]

theorem charLt_asymm {c d : Char} (h : charLt c d = true) : charLt d c = false := by
  simp [charLt] at *
  omega

theorem charLt_trans {c d e : Char} (h1 : charLt c d = true) (h2 : charLt d e = true) :
    charLt c e = true := by
  simp [charLt] at *
  omega

theorem charEq_of_not_lt {c d : Char} (h1 : charLt c d = false) (h2 : charLt d c = false) :
    c = d := by
  simp [charLt] at h1 h2
  have h3 : c.toNat = d.toNat := by omega
  exact Char.eq_of_val_eq (UInt32.toNat.inj h3)

/-- Lexicographic strict order on character lists. -/
def charsLt : List Char → List Char → Bool
  | [], [] => false
  | [], _ :: _ => true
  | _ :: _, [] => false
  | c :: cs, d :: ds => if charLt c d then true else if charLt d c then false else charsLt cs ds

theorem charsLt_irrefl : ∀ cs : List Char, charsLt cs cs = false
  | [] => rfl
  | c :: cs => by simp [charsLt, charLt_irrefl, charsLt_irrefl cs]

theorem charsLt_asymm : ∀ {xs ys : List Char}, charsLt xs ys = true → charsLt ys xs = false
  | [], [], h => by simp [charsLt] at h
  | [], _ :: _, _ => rfl
  | _ :: _, [], h => by simp [charsLt] at h
  | c :: cs, d :: ds, h => by
      by_cases h1 : charLt c d = true
      · simp [charsLt, charLt_asymm h1, h1]
      · have h1f : charLt c d = false := by simpa using h1
        by_cases h2 : charLt d c = true
        · simp [charsLt, h1f, h2] at h
        · have h2f : charLt d c = false := by simpa using h2
          have := @charsLt_asymm cs ds
          simp [charsLt, h1f, h2f] at h ⊢
          exact this h

theorem charsLt_trans : ∀ {xs ys zs : List Char},
    charsLt xs ys = true → charsLt ys zs = true → charsLt xs zs = true
  | [], [], _, h1, _ => by simp [charsLt] at h1
  | [], _ :: _, [], _, h2 => by simp [charsLt] at h2
  | [], _ :: _, _ :: _, _, _ => rfl
  | _ :: _, [], _, h1, _ => by simp [charsLt] at h1
  | _ :: _, _ :: _, [], _, h2 => by simp [charsLt] at h2
  | c :: cs, d :: ds, e :: es, h1, h2 => by
      by_cases hcd : charLt c d = true
      · by_cases hde : charLt d e = true
        · simp [charsLt, charLt_trans hcd hde]
        · have hdef : charLt d e = false := by simpa using hde
          by_cases hed : charLt e d = true
          · simp [charsLt, hdef, hed] at h2
          · have hedf : charLt e d = false := by simpa using hed
            have heq : d = e := charEq_of_not_lt hdef hedf
            subst heq
            simp [charsLt, hcd]
      · have hcdf : charLt c d = false := by simpa using hcd
        by_cases hdc : charLt d c = true
        · simp [charsLt, hcdf, hdc] at h1
        · have hdcf : charLt d c = false := by simpa using hdc
          have heq : c = d := charEq_of_not_lt hcdf hdcf
          subst heq
          simp [charsLt, hcdf, hdcf] at h1
          by_cases hce : charLt c e = true
          · simp [charsLt, hce]
          · have hcef : charLt c e = false := by simpa using hce
            simp [charsLt, hcef] at h2 ⊢
            exact ⟨h2.1, charsLt_trans h1 h2.2⟩

theorem charsEq_of_not_lt : ∀ {xs ys : List Char},
    charsLt xs ys = false → charsLt ys xs = false → xs = ys
  | [], [], _, _ => rfl
  | [], _ :: _, h1, _ => by simp [charsLt] at h1
  | _ :: _, [], _, h2 => by simp [charsLt] at h2
  | c :: cs, d :: ds, h1, h2 => by
      rcases hcd : charLt c d with _ | _ <;> rcases hdc : charLt d c with _ | _ <;>
        simp [charsLt, hcd, hdc] at h1 h2
      have hce : c = d := charEq_of_not_lt hcd hdc
      subst hce
      have := charsEq_of_not_lt h1 h2
      simp [this]

/-- Lexicographic strict order on strings, used to keep object keys
canonically sorted. -/
def strLt (a b : String) : Bool := charsLt a.data b.data

theorem strLt_irrefl (a : String) : strLt a a = false := charsLt_irrefl a.data

theorem strLt_asymm {a b : String} (h : strLt a b = true) : strLt b a = false :=
  charsLt_asymm h

theorem strLt_trans {a b c : String} (h1 : strLt a b = true) (h2 : strLt b c = true) :
    strLt a c = true :=
  charsLt_trans h1 h2

theorem strEq_of_not_lt {a b : String} (h1 : strLt a b = false) (h2 : strLt b a = false) :
    a = b := by
  cases a with
  | mk da =>
    cases b with
    | mk db =>
      have : da = db := charsEq_of_not_lt h1 h2
      simp [this]

theorem strLt_ne {a b : String} (h : strLt a b = true) : a ≠ b := by
  intro he
  subst he
  simp [strLt_irrefl] at h

/-- Lookup of a key in an object's field list (Python dict indexing). -/
def jlookup (k : String) : List (String × JVal) → Option JVal
  | [] => none
  | (k1, v) :: rest => if k1 = k then some v else jlookup k rest

/-- Key-membership test (the Python expression k in d). -/
def containsKey (k : String) (fs : List (String × JVal)) : Bool :=
  (jlookup k fs).isSome

/-- Replace the value of the first occurrence of a key. -/
def setFirst (k : String) (v : JVal) : List (String × JVal) → List (String × JVal)
  | [] => []
  | (k1, w) :: rest => if k1 = k then (k, v) :: rest else (k1, w) :: setFirst k v rest

/-- Drop the first occurrence of a key. -/
def eraseFirst (k : String) : List (String × JVal) → List (String × JVal)
  | [] => []
  | (k1, w) :: rest => if k1 = k then rest else (k1, w) :: eraseFirst k rest

/-- Set a key in a canonically sorted field list: replace in place when
the key is present, otherwise insert at its sorted position (Python
dict assignment, on the canonical representative). -/
def sortedInsert (k : String) (v : JVal) : List (String × JVal) → List (String × JVal)
  | [] => [(k, v)]
  | (k1, w) :: rest =>
      if k = k1 then (k, v) :: rest
      else if strLt k k1 then (k, v) :: (k1, w) :: rest
      else (k1, w) :: sortedInsert k v rest

/-- Insert an element before position i. -/
def insertAt : Nat → JVal → List JVal → List JVal
  | 0, v, l => v :: l
  | _ + 1, v, [] => [v]
  | i + 1, v, x :: xs => x :: insertAt i v xs

/-- Remove the element at position i. -/
def removeAt : Nat → List JVal → List JVal
  | _, [] => []
  | 0, _ :: xs => xs
  | i + 1, x :: xs => x :: removeAt i xs

/-- The strict key order as a relation. -/
def relS (a b : String) : Prop := strLt a b = true

instance relS_trans_inst : IsTrans String relS := ⟨fun _ _ _ => strLt_trans⟩

/-- Boolean check that a key list is strictly ascending. -/
def sortedKeys : List String → Bool
  | [] => true
  | [_] => true
  | k1 :: k2 :: rest => strLt k1 k2 && sortedKeys (k2 :: rest)

theorem sortedKeys_iff : ∀ ks : List String, sortedKeys ks = true ↔ List.Pairwise relS ks
  | [] => by simp [sortedKeys]
  | [k] => by simp [sortedKeys]
  | k1 :: k2 :: rest => by
      have ih := sortedKeys_iff (k2 :: rest)
      simp only [sortedKeys, Bool.and_eq_true, ih, List.pairwise_cons]
      constructor
      · rintro ⟨h12, hall, hp⟩
        refine ⟨fun a ha => ?_, hall, hp⟩
        rcases List.mem_cons.mp ha with rfl | ha
        · exact h12
        · exact strLt_trans h12 (hall a ha)
      · rintro ⟨hall2, hall, hp⟩
        exact ⟨hall2 k2 (List.mem_cons_self _ _), hall, hp⟩

-- Well-formed documents: every object node is canonically sorted.
mutual

def wfJ : JVal → Bool
  | .null => true
  | .bool _ => true
  | .num _ => true
  | .str _ => true
  | .arr l => wfArr l
  | .obj fs => sortedKeys (fs.map Prod.fst) && wfFields fs

def wfArr : List JVal → Bool
  | [] => true
  | x :: xs => wfJ x && wfArr xs

def wfFields : List (String × JVal) → Bool
  | [] => true
  | (_, v) :: fs => wfJ v && wfFields fs

end

theorem jlookup_append_of_ne {k : String} :
    ∀ {l m : List (String × JVal)}, (∀ k1 ∈ l.map Prod.fst, k1 ≠ k) →
      jlookup k (l ++ m) = jlookup k m
  | [], _, _ => rfl
  | (k1, w) :: l, m, h => by
      have hk1 : k1 ≠ k := h k1 (by simp)
      have ih := jlookup_append_of_ne (k := k) (l := l) (m := m)
        (fun a ha => h a (by simp [ha]))
      rw [List.cons_append, jlookup, if_neg hk1]
      exact ih

theorem setFirst_append_of_ne {k : String} {v : JVal} :
    ∀ {l m : List (String × JVal)}, (∀ k1 ∈ l.map Prod.fst, k1 ≠ k) →
      setFirst k v (l ++ m) = l ++ setFirst k v m
  | [], _, _ => rfl
  | (k1, w) :: l, m, h => by
      have hk1 : k1 ≠ k := h k1 (by simp)
      have ih := setFirst_append_of_ne (k := k) (v := v) (l := l) (m := m)
        (fun a ha => h a (by simp [ha]))
      rw [List.cons_append, setFirst, if_neg hk1, List.cons_append]
      exact congrArg (List.cons (k1, w)) ih

theorem eraseFirst_append_of_ne {k : String} :
    ∀ {l m : List (String × JVal)}, (∀ k1 ∈ l.map Prod.fst, k1 ≠ k) →
      eraseFirst k (l ++ m) = l ++ eraseFirst k m
  | [], _, _ => rfl
  | (k1, w) :: l, m, h => by
      have hk1 : k1 ≠ k := h k1 (by simp)
      have ih := eraseFirst_append_of_ne (k := k) (l := l) (m := m)
        (fun a ha => h a (by simp [ha]))
      rw [List.cons_append, eraseFirst, if_neg hk1, List.cons_append]
      exact congrArg (List.cons (k1, w)) ih

theorem sortedInsert_append {k : String} {v : JVal} :
    ∀ {l m : List (String × JVal)}, (∀ k1 ∈ l.map Prod.fst, strLt k1 k = true) →
      (∀ q ∈ m.head?, strLt k q.1 = true) →
      sortedInsert k v (l ++ m) = l ++ (k, v) :: m
  | [], [], _, _ => rfl
  | [], (k2, w) :: m, _, h2 => by
      have hk2 : strLt k k2 = true := h2 (k2, w) rfl
      have hne : k ≠ k2 := strLt_ne hk2
      simp [sortedInsert, hne, hk2]
  | (k1, w) :: l, m, h1, h2 => by
      have hlt : strLt k1 k = true := h1 k1 (by simp)
      have hne : k ≠ k1 := fun he => strLt_ne hlt he.symm
      have hnlt : ¬ strLt k k1 = true := by simp [strLt_asymm hlt]
      have ih := sortedInsert_append (k := k) (v := v) (l := l) (m := m)
        (fun a ha => h1 a (by simp [ha])) h2
      rw [List.cons_append, sortedInsert, if_neg hne, if_neg hnlt, List.cons_append]
      exact congrArg (List.cons (k1, w)) ih

theorem mem_sortedInsert {k : String} {v : JVal} :
    ∀ {p : String × JVal} {fs : List (String × JVal)},
      p ∈ sortedInsert k v fs → p = (k, v) ∨ p ∈ fs
  | p, [], h => by simpa [sortedInsert] using h
  | p, (k1, w) :: rest, h => by
      by_cases he : k = k1
      · rw [sortedInsert, if_pos he] at h
        rcases List.mem_cons.mp h with rfl | h
        · exact Or.inl rfl
        · exact Or.inr (List.mem_cons_of_mem _ h)
      · by_cases hlt : strLt k k1 = true
        · rw [sortedInsert, if_neg he, if_pos hlt] at h
          rcases List.mem_cons.mp h with rfl | h
          · exact Or.inl rfl
          · exact Or.inr h
        · rw [sortedInsert, if_neg he, if_neg hlt] at h
          rcases List.mem_cons.mp h with rfl | h
          · exact Or.inr (List.mem_cons_self _ _)
          · rcases mem_sortedInsert h with h | h
            · exact Or.inl h
            · exact Or.inr (List.mem_cons_of_mem _ h)

theorem mem_keys_sortedInsert {a k : String} {v : JVal} {fs : List (String × JVal)}
    (h : a ∈ (sortedInsert k v fs).map Prod.fst) : a = k ∨ a ∈ fs.map Prod.fst := by
  obtain ⟨p, hp, rfl⟩ := List.mem_map.mp h
  rcases mem_sortedInsert hp with rfl | h2
  · exact Or.inl rfl
  · exact Or.inr (List.mem_map_of_mem _ h2)

theorem pairwise_sortedInsert {k : String} {v : JVal} :
    ∀ {fs : List (String × JVal)}, List.Pairwise relS (fs.map Prod.fst) →
      List.Pairwise relS ((sortedInsert k v fs).map Prod.fst)
  | [], _ => by simp [sortedInsert]
  | (k1, w) :: rest, h => by
      rw [List.map_cons, List.pairwise_cons] at h
      obtain ⟨hall, hp⟩ := h
      by_cases he : k = k1
      · subst he
        rw [sortedInsert, if_pos rfl, List.map_cons, List.pairwise_cons]
        exact ⟨hall, hp⟩
      · by_cases hlt : strLt k k1 = true
        · rw [sortedInsert, if_neg he, if_pos hlt, List.map_cons, List.map_cons,
            List.pairwise_cons]
          refine ⟨fun a ha => ?_, ?_⟩
          · rcases List.mem_cons.mp ha with rfl | ha
            · exact hlt
            · exact strLt_trans hlt (hall a ha)
          · rw [List.pairwise_cons]
            exact ⟨hall, hp⟩
        · rw [sortedInsert, if_neg he, if_neg hlt, List.map_cons, List.pairwise_cons]
          refine ⟨fun a ha => ?_, pairwise_sortedInsert hp⟩
          rcases mem_keys_sortedInsert ha with rfl | ha
          · rcases hs : strLt k1 a with _ | _
            · exact absurd (strEq_of_not_lt hs (by simpa using hlt)).symm he
            · exact hs
          · exact hall a ha

theorem wfFields_sortedInsert {k : String} {v : JVal} (hv : wfJ v = true) :
    ∀ {fs : List (String × JVal)}, wfFields fs = true →
      wfFields (sortedInsert k v fs) = true
  | [], _ => by simp [sortedInsert, wfFields, hv]
  | (k1, w) :: rest, h => by
      rw [wfFields, Bool.and_eq_true] at h
      by_cases he : k = k1
      · rw [sortedInsert, if_pos he, wfFields, Bool.and_eq_true]
        exact ⟨hv, h.2⟩
      · by_cases hlt : strLt k k1 = true
        · rw [sortedInsert, if_neg he, if_pos hlt, wfFields, Bool.and_eq_true]
          refine ⟨hv, ?_⟩
          rw [wfFields, Bool.and_eq_true]
          exact ⟨h.1, h.2⟩
        · rw [sortedInsert, if_neg he, if_neg hlt, wfFields, Bool.and_eq_true]
          exact ⟨h.1, wfFields_sortedInsert hv h.2⟩

theorem jlookup_sortedInsert_self {k : String} {v : JVal} :
    ∀ fs : List (String × JVal), jlookup k (sortedInsert k v fs) = some v
  | [] => by simp [sortedInsert, jlookup]
  | (k1, w) :: rest => by
      by_cases he : k = k1
      · rw [sortedInsert, if_pos he, jlookup, if_pos rfl]
      · by_cases hlt : strLt k k1 = true
        · rw [sortedInsert, if_neg he, if_pos hlt, jlookup, if_pos rfl]
        · have hne : k1 ≠ k := Ne.symm he
          rw [sortedInsert, if_neg he, if_neg hlt, jlookup, if_neg hne]
          exact jlookup_sortedInsert_self rest

theorem jlookup_sortedInsert_ne {k k2 : String} {v : JVal} (hne : k2 ≠ k) :
    ∀ fs : List (String × JVal), jlookup k2 (sortedInsert k v fs) = jlookup k2 fs
  | [] => by
      have hne2 : k ≠ k2 := Ne.symm hne
      simp [sortedInsert, jlookup, hne2]
  | (k1, w) :: rest => by
      have hne2 : k ≠ k2 := Ne.symm hne
      by_cases he : k = k1
      · subst he
        rw [sortedInsert, if_pos rfl, jlookup, if_neg hne2, jlookup, if_neg hne2]
      · by_cases hlt : strLt k k1 = true
        · rw [sortedInsert, if_neg he, if_pos hlt, jlookup, if_neg hne2]
        · rw [sortedInsert, if_neg he, if_neg hlt, jlookup, jlookup]
          by_cases h1 : k1 = k2
          · rw [if_pos h1, if_pos h1]
          · rw [if_neg h1, if_neg h1]
            exact jlookup_sortedInsert_ne hne rest

theorem insertAt_append_length (v : JVal) :
    ∀ (l m : List JVal), insertAt l.length v (l ++ m) = l ++ v :: m
  | [], m => rfl
  | x :: l, m => by
      rw [List.length_cons, List.cons_append, insertAt, List.cons_append]
      exact congrArg (List.cons x) (insertAt_append_length v l m)

theorem removeAt_append_length (x : JVal) :
    ∀ (l m : List JVal), removeAt l.length (l ++ x :: m) = l ++ m
  | [], m => rfl
  | y :: l, m => by
      rw [List.length_cons, List.cons_append, removeAt, List.cons_append]
      exact congrArg (List.cons y) (removeAt_append_length x l m)

theorem set_append_length (x v : JVal) :
    ∀ (l m : List JVal), (l ++ x :: m).set l.length v = l ++ v :: m
  | [], m => rfl
  | y :: l, m => by
      rw [List.length_cons, List.cons_append, List.set, List.cons_append]
      exact congrArg (List.cons y) (set_append_length x v l m)

theorem getElem?_append_length (x : JVal) :
    ∀ (l m : List JVal), (l ++ x :: m)[l.length]? = some x
  | [], m => by simp
  | y :: l, m => by
      rw [List.length_cons, List.cons_append, List.getElem?_cons_succ]
      exact getElem?_append_length x l m

/-- A path segment of an RFC-6902 JSON pointer. -/
inductive Seg where
  | key : String → Seg
  | idx : Nat → Seg
deriving DecidableEq, Repr

/-- RFC-6902-style patch operations.  Modelled from the spec: the
PatchEncoder of section 4.3 produces a sequence of add, remove and
replace operations transforming the original document into the
modified one (the jsonpatch library implementing it is an external
dependency whose source is not part of this repository). -/
inductive Op where
  | add : List Seg → JVal → Op
  | remove : List Seg → Op
  | replace : List Seg → JVal → Op
deriving DecidableEq, Repr

/-- Push an operation one level down, below the given segment. -/
def underSeg (s : Seg) : Op → Op
  | .add p v => .add (s :: p) v
  | .remove p => .remove (s :: p)
  | .replace p v => .replace (s :: p) v

/-- Navigate one segment into a document. -/
def descend : JVal → Seg → Option JVal
  | .obj fs, .key k => jlookup k fs
  | .arr l, .idx i => l[i]?
  | _, _ => none

/-- Replace an existing child (fails when the child is absent). -/
def setChild : JVal → Seg → JVal → Option JVal
  | .obj fs, .key k, v => if containsKey k fs then some (.obj (setFirst k v fs)) else none
  | .arr l, .idx i, v => if i < l.length then some (.arr (l.set i v)) else none
  | _, _, _ => none

/-- Add a child: set the key of an object (insert or overwrite), or
insert before the index of an array. -/
def addChild : JVal → Seg → JVal → Option JVal
  | .obj fs, .key k, v => some (.obj (sortedInsert k v fs))
  | .arr l, .idx i, v => if i ≤ l.length then some (.arr (insertAt i v l)) else none
  | _, _, _ => none

/-- Remove an existing child. -/
def removeChild : JVal → Seg → Option JVal
  | .obj fs, .key k => if containsKey k fs then some (.obj (eraseFirst k fs)) else none
  | .arr l, .idx i => if i < l.length then some (.arr (removeAt i l)) else none
  | _, _ => none

/-- Apply an add operation along a path. -/
def applyAddP : List Seg → JVal → JVal → Option JVal
  | [], v, _ => some v
  | [s], v, doc => addChild doc s v
  | s :: s2 :: ps, v, doc =>
      match descend doc s with
      | none => none
      | some c =>
          match applyAddP (s2 :: ps) v c with
          | none => none
          | some c1 => setChild doc s c1

/-- Apply a remove operation along a path. -/
def applyRemP : List Seg → JVal → Option JVal
  | [], _ => none
  | [s], doc => removeChild doc s
  | s :: s2 :: ps, doc =>
      match descend doc s with
      | none => none
      | some c =>
          match applyRemP (s2 :: ps) c with
          | none => none
          | some c1 => setChild doc s c1

/-- Apply a replace operation along a path. -/
def applyRepP : List Seg → JVal → JVal → Option JVal
  | [], v, _ => some v
  | s :: ps, v, doc =>
      match descend doc s with
      | none => none
      | some c =>
          match applyRepP ps v c with
          | none => none
          | some c1 => setChild doc s c1

/-- Apply one patch operation. -/
def applyOp : Op → JVal → Option JVal
  | .add p v, doc => applyAddP p v doc
  | .remove p, doc => applyRemP p doc
  | .replace p v, doc => applyRepP p v doc

/-- Apply a patch, operation by operation, left to right. -/
def applyPatch : List Op → JVal → Option JVal
  | [], doc => some doc
  | op :: ops, doc =>
      match applyOp op doc with
      | none => none
      | some d1 => applyPatch ops d1

/-- Operations whose target is not the document root (plus arbitrary
replace operations); the diff below only ever emits such operations
inside containers. -/
def goodOp : Op → Bool
  | .add p _ => !p.isEmpty
  | .remove p => !p.isEmpty
  | .replace _ _ => true

theorem applyPatch_append (ops1 ops2 : List Op) :
    ∀ doc : JVal, applyPatch (ops1 ++ ops2) doc =
      match applyPatch ops1 doc with
      | none => none
      | some d1 => applyPatch ops2 d1 := by
  induction ops1 with
  | nil => intro doc; rfl
  | cons op ops ih =>
      intro doc
      rw [List.cons_append, applyPatch, applyPatch]
      cases h : applyOp op doc with
      | none => rfl
      | some d1 => exact ih d1

theorem jlookup_setFirst_self {k : String} {v : JVal} :
    ∀ {fs : List (String × JVal)}, containsKey k fs = true →
      jlookup k (setFirst k v fs) = some v
  | [], h => by simp [containsKey, jlookup] at h
  | (k1, w) :: rest, h => by
      by_cases he : k1 = k
      · rw [setFirst, if_pos he, jlookup, if_pos rfl]
      · rw [containsKey, jlookup, if_neg he] at h
        rw [setFirst, if_neg he, jlookup, if_neg he]
        exact jlookup_setFirst_self h

theorem setFirst_setFirst {k : String} {a b : JVal} :
    ∀ fs : List (String × JVal), setFirst k b (setFirst k a fs) = setFirst k b fs
  | [] => rfl
  | (k1, w) :: rest => by
      by_cases he : k1 = k
      · rw [setFirst, if_pos he, setFirst, if_pos rfl, setFirst, if_pos he]
      · rw [setFirst, if_neg he, setFirst, if_neg he, setFirst, if_neg he]
        exact congrArg (List.cons (k1, w)) (setFirst_setFirst rest)

theorem setFirst_lookup_self {k : String} :
    ∀ {fs : List (String × JVal)} {c : JVal}, jlookup k fs = some c →
      setFirst k c fs = fs
  | [], c, h => by simp [jlookup] at h
  | (k1, w) :: rest, c, h => by
      by_cases he : k1 = k
      · rw [jlookup, if_pos he] at h
        rw [setFirst, if_pos he, he]
        injection h with h
        rw [h]
      · rw [jlookup, if_neg he] at h
        rw [setFirst, if_neg he]
        exact congrArg (List.cons (k1, w)) (setFirst_lookup_self h)

theorem set_of_getElem? {v : JVal} :
    ∀ {l : List JVal} {i : Nat}, l[i]? = some v → l.set i v = l
  | [], i, h => by simp at h
  | x :: xs, 0, h => by
      simp only [List.getElem?_cons_zero, Option.some.injEq] at h
      rw [List.set, h]
  | x :: xs, i + 1, h => by
      rw [List.getElem?_cons_succ] at h
      rw [List.set]
      exact congrArg (List.cons x) (set_of_getElem? h)

theorem setChild_descend_self {doc c : JVal} {s : Seg} (hc : descend doc s = some c) :
    setChild doc s c = some doc := by
  cases doc with
  | obj fs =>
      cases s with
      | key k =>
          have hck : containsKey k fs = true := by
            rw [containsKey, descend] at *
            rw [hc]
            rfl
          rw [setChild, if_pos hck, setFirst_lookup_self hc]
      | idx i => simp [descend] at hc
  | arr l =>
      cases s with
      | key k => simp [descend] at hc
      | idx i =>
          rw [descend] at hc
          have hlt : i < l.length := by
            rcases List.getElem?_eq_some_iff.mp hc with ⟨h, _⟩
            exact h
          rw [setChild, if_pos hlt, set_of_getElem? hc]
  | null => simp [descend] at hc
  | bool b => simp [descend] at hc
  | num n => simp [descend] at hc
  | str t => simp [descend] at hc

theorem setChild_some {doc c : JVal} {s : Seg} (hc : descend doc s = some c) (v : JVal) :
    ∃ doc1, setChild doc s v = some doc1 ∧ descend doc1 s = some v := by
  cases doc with
  | obj fs =>
      cases s with
      | key k =>
          have hck : containsKey k fs = true := by
            rw [containsKey, descend] at *
            rw [hc]
            rfl
          refine ⟨.obj (setFirst k v fs), by rw [setChild, if_pos hck], ?_⟩
          rw [descend]
          exact jlookup_setFirst_self hck
      | idx i => simp [descend] at hc
  | arr l =>
      cases s with
      | key k => simp [descend] at hc
      | idx i =>
          rw [descend] at hc
          have hlt : i < l.length := by
            rcases List.getElem?_eq_some_iff.mp hc with ⟨h, _⟩
            exact h
          refine ⟨.arr (l.set i v), by rw [setChild, if_pos hlt], ?_⟩
          rw [descend]
          exact List.getElem?_set_self hlt
  | null => simp [descend] at hc
  | bool b => simp [descend] at hc
  | num n => simp [descend] at hc
  | str t => simp [descend] at hc

theorem setChild_setChild {doc doc1 a : JVal} {s : Seg} (h : setChild doc s a = some doc1)
    (b : JVal) : setChild doc1 s b = setChild doc s b := by
  cases doc with
  | obj fs =>
      cases s with
      | key k =>
          rw [setChild] at h
          by_cases hck : containsKey k fs = true
          · rw [if_pos hck] at h
            injection h with h
            subst h
            have hck2 : containsKey k (setFirst k a fs) = true := by
              rw [containsKey, jlookup_setFirst_self hck]
              rfl
            rw [setChild, if_pos hck2, setChild, if_pos hck, setFirst_setFirst]
          · rw [if_neg hck] at h
            exact absurd h (by simp)
      | idx i => simp [setChild] at h
  | arr l =>
      cases s with
      | key k => simp [setChild] at h
      | idx i =>
          rw [setChild] at h
          by_cases hlt : i < l.length
          · rw [if_pos hlt] at h
            injection h with h
            subst h
            have hlt2 : i < (l.set i a).length := by
              rw [List.length_set]
              exact hlt
            rw [setChild, if_pos hlt2, setChild, if_pos hlt, List.set_set]
          · rw [if_neg hlt] at h
            exact absurd h (by simp)
  | null => simp [setChild] at h
  | bool b2 => simp [setChild] at h
  | num n => simp [setChild] at h
  | str t => simp [setChild] at h

theorem applyOp_underSeg {s : Seg} {op : Op} {doc c : JVal}
    (hg : goodOp op = true) (hc : descend doc s = some c) :
    applyOp (underSeg s op) doc =
      match applyOp op c with
      | none => none
      | some c1 => setChild doc s c1 := by
  cases op with
  | add p v =>
      cases p with
      | nil => simp [goodOp] at hg
      | cons s2 ps =>
          rw [underSeg, applyOp, applyAddP, hc, applyOp]
  | remove p =>
      cases p with
      | nil => simp [goodOp] at hg
      | cons s2 ps =>
          rw [underSeg, applyOp, applyRemP, hc, applyOp]
  | replace p v =>
      rw [underSeg, applyOp, applyRepP, hc, applyOp]

theorem applyPatch_underSeg {s : Seg} :
    ∀ {ops : List Op} {doc c : JVal}, (∀ op ∈ ops, goodOp op = true) →
      descend doc s = some c →
      applyPatch (ops.map (underSeg s)) doc =
        match applyPatch ops c with
        | none => none
        | some c1 => setChild doc s c1
  | [], doc, c, _, hc => by
      rw [List.map_nil, applyPatch, applyPatch]
      exact (setChild_descend_self hc).symm
  | op :: ops, doc, c, hg, hc => by
      rw [List.map_cons, applyPatch, applyPatch,
        applyOp_underSeg (hg op (List.mem_cons_self _ _)) hc]
      cases h1 : applyOp op c with
      | none => rfl
      | some c1 =>
          obtain ⟨doc1, hd1, hdesc1⟩ := setChild_some hc c1
          have ih := applyPatch_underSeg
            (fun o ho => hg o (List.mem_cons_of_mem _ ho)) hdesc1
          show (match setChild doc s c1 with
                | none => none
                | some d1 => applyPatch (List.map (underSeg s) ops) d1) =
              (match applyPatch ops c1 with
                | none => none
                | some c2 => setChild doc s c2)
          rw [hd1]
          show applyPatch (List.map (underSeg s) ops) doc1 =
              (match applyPatch ops c1 with
                | none => none
                | some c2 => setChild doc s c2)
          rw [ih]
          cases h2 : applyPatch ops c1 with
          | none => rfl
          | some c2 => exact setChild_setChild hd1 c2

mutual

/-- Structural diff between two documents, modelled from spec 4.3: the
empty patch on equal documents, recursive descent into objects (merge
of the two sorted field lists) and arrays (pointwise, then inserts or
removals at the tail), and a single replace operation otherwise. -/
def diff (a b : JVal) : List Op :=
  if a = b then []
  else
    match a, b with
    | .obj xs, .obj ys => diffFields xs ys
    | .arr xs, .arr ys => diffElems 0 xs ys
    | _, b1 => [Op.replace [] b1]
termination_by sizeOf a + sizeOf b
decreasing_by
  all_goals simp_wf
  all_goals omega

/-- Diff of two sorted field lists by key merge. -/
def diffFields : List (String × JVal) → List (String × JVal) → List Op
  | [], [] => []
  | [], (k, v) :: ys => Op.add [Seg.key k] v :: diffFields [] ys
  | (k, _) :: xs, [] => Op.remove [Seg.key k] :: diffFields xs []
  | (k1, v1) :: xs, (k2, v2) :: ys =>
      if k1 = k2 then
        (diff v1 v2).map (underSeg (Seg.key k1)) ++ diffFields xs ys
      else if strLt k1 k2 then
        Op.remove [Seg.key k1] :: diffFields xs ((k2, v2) :: ys)
      else
        Op.add [Seg.key k2] v2 :: diffFields ((k1, v1) :: xs) ys
termination_by xs ys => sizeOf xs + sizeOf ys
decreasing_by
  all_goals simp_wf
  all_goals omega

/-- Diff of two element lists: pointwise at the shared prefix, then
additions or removals at the tail. -/
def diffElems (i : Nat) : List JVal → List JVal → List Op
  | [], [] => []
  | [], y :: ys => Op.add [Seg.idx i] y :: diffElems (i + 1) [] ys
  | _ :: xs, [] => Op.remove [Seg.idx i] :: diffElems i xs []
  | x :: xs, y :: ys => (diff x y).map (underSeg (Seg.idx i)) ++ diffElems (i + 1) xs ys
termination_by xs ys => sizeOf xs + sizeOf ys
decreasing_by
  all_goals simp_wf
  all_goals omega

end

theorem diff_self (a : JVal) : diff a a = [] := by
  unfold diff
  rw [if_pos rfl]

theorem goodOp_underSeg (s : Seg) (op : Op) : goodOp (underSeg s op) = true := by
  cases op <;> rfl

theorem diffFields_good : ∀ (xs ys : List (String × JVal)) (op : Op),
    op ∈ diffFields xs ys → goodOp op = true
  | [], [], op, hop => by
      unfold diffFields at hop
      simp at hop
  | [], (k, v) :: ys, op, hop => by
      unfold diffFields at hop
      rcases List.mem_cons.mp hop with rfl | hop
      · rfl
      · exact diffFields_good [] ys op hop
  | (k, v) :: xs, [], op, hop => by
      unfold diffFields at hop
      rcases List.mem_cons.mp hop with rfl | hop
      · rfl
      · exact diffFields_good xs [] op hop
  | (k1, v1) :: xs, (k2, v2) :: ys, op, hop => by
      unfold diffFields at hop
      by_cases he : k1 = k2
      · rw [if_pos he] at hop
        rcases List.mem_append.mp hop with hop | hop
        · obtain ⟨o, _, rfl⟩ := List.mem_map.mp hop
          exact goodOp_underSeg _ o
        · exact diffFields_good xs ys op hop
      · rw [if_neg he] at hop
        by_cases hlt : strLt k1 k2 = true
        · rw [if_pos hlt] at hop
          rcases List.mem_cons.mp hop with rfl | hop
          · rfl
          · exact diffFields_good xs ((k2, v2) :: ys) op hop
        · rw [if_neg hlt] at hop
          rcases List.mem_cons.mp hop with rfl | hop
          · rfl
          · exact diffFields_good ((k1, v1) :: xs) ys op hop
termination_by xs ys => sizeOf xs + sizeOf ys
decreasing_by
  all_goals simp_wf
  all_goals omega

theorem diffElems_good : ∀ (i : Nat) (xs ys : List JVal) (op : Op),
    op ∈ diffElems i xs ys → goodOp op = true
  | i, [], [], op, hop => by
      unfold diffElems at hop
      simp at hop
  | i, [], y :: ys, op, hop => by
      unfold diffElems at hop
      rcases List.mem_cons.mp hop with rfl | hop
      · rfl
      · exact diffElems_good (i + 1) [] ys op hop
  | i, x :: xs, [], op, hop => by
      unfold diffElems at hop
      rcases List.mem_cons.mp hop with rfl | hop
      · rfl
      · exact diffElems_good i xs [] op hop
  | i, x :: xs, y :: ys, op, hop => by
      unfold diffElems at hop
      rcases List.mem_append.mp hop with hop | hop
      · obtain ⟨o, _, rfl⟩ := List.mem_map.mp hop
        exact goodOp_underSeg _ o
      · exact diffElems_good (i + 1) xs ys op hop
termination_by i xs ys => sizeOf xs + sizeOf ys
decreasing_by
  all_goals simp_wf
  all_goals omega

theorem diff_good (a b : JVal) : ∀ op ∈ diff a b, goodOp op = true := by
  intro op hop
  unfold diff at hop
  by_cases he : a = b
  · rw [if_pos he] at hop
    simp at hop
  · rw [if_neg he] at hop
    cases a <;> cases b <;>
      first
        | (exact diffFields_good _ _ op hop)
        | (exact diffElems_good 0 _ _ op hop)
        | (rcases List.mem_singleton.mp hop with rfl; rfl)

theorem applyPatch_cons {op : Op} {ops : List Op} {doc d1 : JVal}
    (h : applyOp op doc = some d1) : applyPatch (op :: ops) doc = applyPatch ops d1 := by
  show (match applyOp op doc with
        | none => none
        | some d => applyPatch ops d) = applyPatch ops d1
  rw [h]

theorem applyPatch_append_some {ops1 ops2 : List Op} {doc d1 : JVal}
    (h : applyPatch ops1 doc = some d1) :
    applyPatch (ops1 ++ ops2) doc = applyPatch ops2 d1 := by
  rw [applyPatch_append, h]

theorem applyPatch_underSeg_some {s : Seg} {ops : List Op} {doc c c1 : JVal}
    (hg : ∀ op ∈ ops, goodOp op = true) (hc : descend doc s = some c)
    (h : applyPatch ops c = some c1) :
    applyPatch (ops.map (underSeg s)) doc = setChild doc s c1 := by
  rw [applyPatch_underSeg hg hc, h]

theorem applyOp_add_one (s : Seg) (v doc : JVal) :
    applyOp (Op.add [s] v) doc = addChild doc s v := rfl

theorem applyOp_remove_one (s : Seg) (doc : JVal) :
    applyOp (Op.remove [s]) doc = removeChild doc s := rfl

theorem keys_lt_middle {acc rest : List (String × JVal)} {k : String} {v : JVal}
    (h : List.Pairwise relS ((acc ++ (k, v) :: rest).map Prod.fst)) :
    ∀ a ∈ acc.map Prod.fst, strLt a k = true := by
  rw [List.map_append, List.map_cons, List.pairwise_append] at h
  intro a ha
  exact h.2.2 a ha k (List.mem_cons_self _ _)

theorem keys_ne_middle {acc rest : List (String × JVal)} {k : String} {v : JVal}
    (h : List.Pairwise relS ((acc ++ (k, v) :: rest).map Prod.fst)) :
    ∀ a ∈ acc.map Prod.fst, a ≠ k :=
  fun a ha => strLt_ne (keys_lt_middle h a ha)

theorem jlookup_middle {acc rest : List (String × JVal)} {k : String} {v : JVal}
    (hne : ∀ a ∈ acc.map Prod.fst, a ≠ k) :
    jlookup k (acc ++ (k, v) :: rest) = some v := by
  rw [jlookup_append_of_ne hne, jlookup, if_pos rfl]

theorem containsKey_middle {acc rest : List (String × JVal)} {k : String} {v : JVal}
    (hne : ∀ a ∈ acc.map Prod.fst, a ≠ k) :
    containsKey k (acc ++ (k, v) :: rest) = true := by
  rw [containsKey, jlookup_middle hne]
  rfl

theorem setFirst_middle {acc rest : List (String × JVal)} {k : String} {v w : JVal}
    (hne : ∀ a ∈ acc.map Prod.fst, a ≠ k) :
    setFirst k w (acc ++ (k, v) :: rest) = acc ++ (k, w) :: rest := by
  rw [setFirst_append_of_ne hne, setFirst, if_pos rfl]

theorem eraseFirst_middle {acc rest : List (String × JVal)} {k : String} {v : JVal}
    (hne : ∀ a ∈ acc.map Prod.fst, a ≠ k) :
    eraseFirst k (acc ++ (k, v) :: rest) = acc ++ rest := by
  rw [eraseFirst_append_of_ne hne, eraseFirst, if_pos rfl]

theorem pairwise_keys_value_irrel {acc rest : List (String × JVal)} {k : String}
    (v w : JVal) (h : List.Pairwise relS ((acc ++ (k, v) :: rest).map Prod.fst)) :
    List.Pairwise relS ((acc ++ (k, w) :: rest).map Prod.fst) := by
  have he : (acc ++ (k, w) :: rest).map Prod.fst = (acc ++ (k, v) :: rest).map Prod.fst := by
    simp [List.map_append]
  rw [he]
  exact h

theorem pairwise_drop_middle {acc rest : List (String × JVal)} {k : String} {v : JVal}
    (h : List.Pairwise relS ((acc ++ (k, v) :: rest).map Prod.fst)) :
    List.Pairwise relS ((acc ++ rest).map Prod.fst) := by
  refine List.Pairwise.sublist ?_ h
  rw [List.map_append, List.map_append, List.map_cons]
  exact List.Sublist.append_left (List.sublist_cons_self _ _) _

theorem sublist_keys_snoc {acc rest : List (String × JVal)} {k : String} {v : JVal} :
    List.Sublist ((acc ++ [(k, v)]).map Prod.fst)
      ((acc ++ (k, v) :: rest).map Prod.fst) := by
  have h : acc ++ (k, v) :: rest = (acc ++ [(k, v)]) ++ rest := List.append_cons acc (k, v) rest
  rw [h]
  simp only [List.map_append]
  exact List.sublist_append_left _ _

theorem pairwise_insert_front {acc xs : List (String × JVal)} {k1 k2 : String}
    {v1 v2 : JVal}
    (hx : List.Pairwise relS ((acc ++ (k1, v1) :: xs).map Prod.fst))
    (hacc : ∀ a ∈ acc.map Prod.fst, strLt a k2 = true)
    (h21 : strLt k2 k1 = true) :
    List.Pairwise relS ((acc ++ (k2, v2) :: (k1, v1) :: xs).map Prod.fst) := by
  rw [List.map_append, List.map_cons] at hx
  rw [List.map_append, List.map_cons, List.map_cons]
  rw [List.pairwise_append] at hx ⊢
  obtain ⟨ha, hr, hcross⟩ := hx
  refine ⟨ha, ?_, ?_⟩
  · rw [List.pairwise_cons]
    refine ⟨fun a haa => ?_, hr⟩
    rcases List.mem_cons.mp haa with rfl | haa
    · exact h21
    · rw [List.pairwise_cons] at hr
      exact strLt_trans h21 (hr.1 a haa)
  · intro a haa b hb
    rcases List.mem_cons.mp hb with rfl | hb
    · exact hacc a haa
    · exact hcross a haa b hb

theorem sortedInsert_last {k : String} {v : JVal} {l : List (String × JVal)}
    (h1 : ∀ k1 ∈ l.map Prod.fst, strLt k1 k = true) :
    sortedInsert k v l = l ++ [(k, v)] := by
  have h := sortedInsert_append (k := k) (v := v) (l := l) (m := []) h1
    (by intro q hq; simp at hq)
  rwa [List.append_nil] at h

mutual

/-- Round trip at the root: applying the diff of two well-formed
documents to the first produces the second. -/
theorem rtJ : ∀ (a b : JVal), wfJ a = true → wfJ b = true →
    applyPatch (diff a b) a = some b
  | .obj xs, .obj ys, ha, hb => by
      by_cases he : JVal.obj xs = JVal.obj ys
      · rw [he, diff_self]
        rfl
      · unfold diff
        rw [if_neg he]
        simp only [wfJ, Bool.and_eq_true] at ha hb
        have h1 := (sortedKeys_iff _).mp ha.1
        have h2 := (sortedKeys_iff _).mp hb.1
        have h3 := rtFields xs ys [] (by simpa using h1) (by simpa using h2)
          ha.2 hb.2
        simpa using h3
  | .arr xs, .arr ys, ha, hb => by
      by_cases he : JVal.arr xs = JVal.arr ys
      · rw [he, diff_self]
        rfl
      · unfold diff
        rw [if_neg he]
        simp only [wfJ] at ha hb
        have h3 := rtElems xs ys [] ha hb
        simpa using h3
  | .null, .null, _, _ => by
      rw [diff_self]
      rfl
  | .null, .bool c2, _, _ => by
      unfold diff
      rw [if_neg (fun h => JVal.noConfusion h)]
      rfl
  | .null, .num n2, _, _ => by
      unfold diff
      rw [if_neg (fun h => JVal.noConfusion h)]
      rfl
  | .null, .str t2, _, _ => by
      unfold diff
      rw [if_neg (fun h => JVal.noConfusion h)]
      rfl
  | .null, .arr l2, _, _ => by
      unfold diff
      rw [if_neg (fun h => JVal.noConfusion h)]
      rfl
  | .null, .obj f2, _, _ => by
      unfold diff
      rw [if_neg (fun h => JVal.noConfusion h)]
      rfl
  | .bool c1, .null, _, _ => by
      unfold diff
      rw [if_neg (fun h => JVal.noConfusion h)]
      rfl
  | .bool c1, .bool c2, _, _ => by
      by_cases he : JVal.bool c1 = JVal.bool c2
      · rw [he, diff_self]
        rfl
      · unfold diff
        rw [if_neg he]
        rfl
  | .bool c1, .num n2, _, _ => by
      unfold diff
      rw [if_neg (fun h => JVal.noConfusion h)]
      rfl
  | .bool c1, .str t2, _, _ => by
      unfold diff
      rw [if_neg (fun h => JVal.noConfusion h)]
      rfl
  | .bool c1, .arr l2, _, _ => by
      unfold diff
      rw [if_neg (fun h => JVal.noConfusion h)]
      rfl
  | .bool c1, .obj f2, _, _ => by
      unfold diff
      rw [if_neg (fun h => JVal.noConfusion h)]
      rfl
  | .num n1, .null, _, _ => by
      unfold diff
      rw [if_neg (fun h => JVal.noConfusion h)]
      rfl
  | .num n1, .bool c2, _, _ => by
      unfold diff
      rw [if_neg (fun h => JVal.noConfusion h)]
      rfl
  | .num n1, .num n2, _, _ => by
      by_cases he : JVal.num n1 = JVal.num n2
      · rw [he, diff_self]
        rfl
      · unfold diff
        rw [if_neg he]
        rfl
  | .num n1, .str t2, _, _ => by
      unfold diff
      rw [if_neg (fun h => JVal.noConfusion h)]
      rfl
  | .num n1, .arr l2, _, _ => by
      unfold diff
      rw [if_neg (fun h => JVal.noConfusion h)]
      rfl
  | .num n1, .obj f2, _, _ => by
      unfold diff
      rw [if_neg (fun h => JVal.noConfusion h)]
      rfl
  | .str t1, .null, _, _ => by
      unfold diff
      rw [if_neg (fun h => JVal.noConfusion h)]
      rfl
  | .str t1, .bool c2, _, _ => by
      unfold diff
      rw [if_neg (fun h => JVal.noConfusion h)]
      rfl
  | .str t1, .num n2, _, _ => by
      unfold diff
      rw [if_neg (fun h => JVal.noConfusion h)]
      rfl
  | .str t1, .str t2, _, _ => by
      by_cases he : JVal.str t1 = JVal.str t2
      · rw [he, diff_self]
        rfl
      · unfold diff
        rw [if_neg he]
        rfl
  | .str t1, .arr l2, _, _ => by
      unfold diff
      rw [if_neg (fun h => JVal.noConfusion h)]
      rfl
  | .str t1, .obj f2, _, _ => by
      unfold diff
      rw [if_neg (fun h => JVal.noConfusion h)]
      rfl
  | .arr l1, .null, _, _ => by
      unfold diff
      rw [if_neg (fun h => JVal.noConfusion h)]
      rfl
  | .arr l1, .bool c2, _, _ => by
      unfold diff
      rw [if_neg (fun h => JVal.noConfusion h)]
      rfl
  | .arr l1, .num n2, _, _ => by
      unfold diff
      rw [if_neg (fun h => JVal.noConfusion h)]
      rfl
  | .arr l1, .str t2, _, _ => by
      unfold diff
      rw [if_neg (fun h => JVal.noConfusion h)]
      rfl
  | .arr l1, .obj f2, _, _ => by
      unfold diff
      rw [if_neg (fun h => JVal.noConfusion h)]
      rfl
  | .obj f1, .null, _, _ => by
      unfold diff
      rw [if_neg (fun h => JVal.noConfusion h)]
      rfl
  | .obj f1, .bool c2, _, _ => by
      unfold diff
      rw [if_neg (fun h => JVal.noConfusion h)]
      rfl
  | .obj f1, .num n2, _, _ => by
      unfold diff
      rw [if_neg (fun h => JVal.noConfusion h)]
      rfl
  | .obj f1, .str t2, _, _ => by
      unfold diff
      rw [if_neg (fun h => JVal.noConfusion h)]
      rfl
  | .obj f1, .arr l2, _, _ => by
      unfold diff
      rw [if_neg (fun h => JVal.noConfusion h)]
      rfl
termination_by a b ha hb => sizeOf a + sizeOf b
decreasing_by
  all_goals simp_wf
  all_goals omega

/-- Round trip for the sorted field merge: applying the field diff to
the object whose fields are the processed prefix followed by the
remaining source fields yields the prefix followed by the target
fields. -/
theorem rtFields : ∀ (xs ys acc : List (String × JVal)),
    List.Pairwise relS ((acc ++ xs).map Prod.fst) →
    List.Pairwise relS ((acc ++ ys).map Prod.fst) →
    wfFields xs = true → wfFields ys = true →
    applyPatch (diffFields xs ys) (JVal.obj (acc ++ xs)) = some (JVal.obj (acc ++ ys))
  | [], [], acc, _, _, _, _ => by
      unfold diffFields
      rfl
  | [], (k, v) :: ys1, acc, hx, hy, hwx, hwy => by
      simp only [wfFields, Bool.and_eq_true] at hwy
      unfold diffFields
      have hacc : ∀ a ∈ acc.map Prod.fst, strLt a k = true := keys_lt_middle hy
      have e1 : applyOp (Op.add [Seg.key k] v) (JVal.obj (acc ++ [])) =
          some (JVal.obj (acc ++ [(k, v)])) := by
        rw [applyOp_add_one, addChild, List.append_nil, sortedInsert_last hacc]
      rw [applyPatch_cons e1]
      have hx2 : List.Pairwise relS (((acc ++ [(k, v)]) ++ []).map Prod.fst) := by
        rw [List.append_nil]
        exact List.Pairwise.sublist sublist_keys_snoc hy
      have hy2 : List.Pairwise relS (((acc ++ [(k, v)]) ++ ys1).map Prod.fst) := by
        rw [← List.append_cons]
        exact hy
      have h2 := rtFields [] ys1 (acc ++ [(k, v)]) hx2 hy2 rfl hwy.2
      rw [List.append_nil] at h2
      rw [List.append_cons acc (k, v) ys1]
      exact h2
  | (k, v) :: xs1, [], acc, hx, hy, hwx, hwy => by
      simp only [wfFields, Bool.and_eq_true] at hwx
      unfold diffFields
      have hne : ∀ a ∈ acc.map Prod.fst, a ≠ k := keys_ne_middle hx
      have e1 : applyOp (Op.remove [Seg.key k]) (JVal.obj (acc ++ (k, v) :: xs1)) =
          some (JVal.obj (acc ++ xs1)) := by
        rw [applyOp_remove_one, removeChild, if_pos (containsKey_middle hne),
          eraseFirst_middle hne]
      rw [applyPatch_cons e1]
      exact rtFields xs1 [] acc (pairwise_drop_middle hx) hy hwx.2 hwy
  | (k1, v1) :: xs1, (k2, v2) :: ys1, acc, hx, hy, hwx, hwy => by
      simp only [wfFields, Bool.and_eq_true] at hwx hwy
      by_cases he : k1 = k2
      · subst he
        unfold diffFields
        rw [if_pos rfl]
        have hne : ∀ a ∈ acc.map Prod.fst, a ≠ k1 := keys_ne_middle hx
        have hdesc : descend (JVal.obj (acc ++ (k1, v1) :: xs1)) (Seg.key k1) = some v1 := by
          show jlookup k1 (acc ++ (k1, v1) :: xs1) = some v1
          exact jlookup_middle hne
        have e1 : applyPatch ((diff v1 v2).map (underSeg (Seg.key k1)))
            (JVal.obj (acc ++ (k1, v1) :: xs1)) = some (JVal.obj (acc ++ (k1, v2) :: xs1)) := by
          rw [applyPatch_underSeg_some (diff_good v1 v2) hdesc
            (rtJ v1 v2 hwx.1 hwy.1)]
          rw [setChild, if_pos (containsKey_middle hne), setFirst_middle hne]
        rw [applyPatch_append_some e1]
        have hx2 : List.Pairwise relS (((acc ++ [(k1, v2)]) ++ xs1).map Prod.fst) := by
          rw [← List.append_cons]
          exact pairwise_keys_value_irrel v1 v2 hx
        have hy2 : List.Pairwise relS (((acc ++ [(k1, v2)]) ++ ys1).map Prod.fst) := by
          rw [← List.append_cons]
          exact hy
        have h2 := rtFields xs1 ys1 (acc ++ [(k1, v2)]) hx2 hy2 hwx.2 hwy.2
        rw [List.append_cons acc (k1, v2) xs1, List.append_cons acc (k1, v2) ys1]
        exact h2
      · by_cases hlt : strLt k1 k2 = true
        · unfold diffFields
          rw [if_neg he, if_pos hlt]
          have hne : ∀ a ∈ acc.map Prod.fst, a ≠ k1 := keys_ne_middle hx
          have e1 : applyOp (Op.remove [Seg.key k1]) (JVal.obj (acc ++ (k1, v1) :: xs1)) =
              some (JVal.obj (acc ++ xs1)) := by
            rw [applyOp_remove_one, removeChild, if_pos (containsKey_middle hne),
              eraseFirst_middle hne]
          rw [applyPatch_cons e1]
          refine rtFields xs1 ((k2, v2) :: ys1) acc (pairwise_drop_middle hx) hy hwx.2 ?_
          simp only [wfFields, Bool.and_eq_true]
          exact hwy
        · have hgt : strLt k2 k1 = true := by
            rcases hs : strLt k2 k1 with _ | _
            · exact absurd (strEq_of_not_lt (by simpa using hlt) hs) he
            · rfl
          unfold diffFields
          rw [if_neg he, if_neg hlt]
          have hacc2 : ∀ a ∈ acc.map Prod.fst, strLt a k2 = true := keys_lt_middle hy
          have e1 : applyOp (Op.add [Seg.key k2] v2) (JVal.obj (acc ++ (k1, v1) :: xs1)) =
              some (JVal.obj (acc ++ (k2, v2) :: (k1, v1) :: xs1)) := by
            rw [applyOp_add_one, addChild, sortedInsert_append hacc2 ?hd]
            case hd =>
              intro q hq
              have hq2 : (k1, v1) = q := by simpa using hq
              rw [← hq2]
              exact hgt
          rw [applyPatch_cons e1]
          have hx2 : List.Pairwise relS
              (((acc ++ [(k2, v2)]) ++ (k1, v1) :: xs1).map Prod.fst) := by
            rw [← List.append_cons]
            exact pairwise_insert_front hx hacc2 hgt
          have hy2 : List.Pairwise relS (((acc ++ [(k2, v2)]) ++ ys1).map Prod.fst) := by
            rw [← List.append_cons]
            exact hy
          have hwx2 : wfFields ((k1, v1) :: xs1) = true := by
            simp only [wfFields, Bool.and_eq_true]
            exact hwx
          have h2 := rtFields ((k1, v1) :: xs1) ys1 (acc ++ [(k2, v2)]) hx2 hy2 hwx2 hwy.2
          rw [List.append_cons acc (k2, v2) ((k1, v1) :: xs1),
            List.append_cons acc (k2, v2) ys1]
          exact h2
termination_by xs ys acc hx hy hwx hwy => sizeOf xs + sizeOf ys
decreasing_by
  all_goals simp_wf
  all_goals omega

/-- Round trip for the element diff: applying the element diff at the
index just past the processed prefix transforms the remaining source
elements into the target elements. -/
theorem rtElems : ∀ (xs ys acc : List JVal), wfArr xs = true → wfArr ys = true →
    applyPatch (diffElems acc.length xs ys) (JVal.arr (acc ++ xs)) =
      some (JVal.arr (acc ++ ys))
  | [], [], acc, _, _ => by
      unfold diffElems
      rfl
  | [], y :: ys1, acc, hwx, hwy => by
      simp only [wfArr, Bool.and_eq_true] at hwy
      unfold diffElems
      have e1 : applyOp (Op.add [Seg.idx acc.length] y) (JVal.arr (acc ++ [])) =
          some (JVal.arr (acc ++ [y])) := by
        rw [applyOp_add_one, addChild, List.append_nil,
          if_pos (Nat.le_refl acc.length)]
        have h := insertAt_append_length y acc []
        rw [List.append_nil] at h
        rw [h]
      rw [applyPatch_cons e1]
      have hlen : acc.length + 1 = (acc ++ [y]).length := by simp
      rw [hlen]
      have h2 := rtElems [] ys1 (acc ++ [y]) rfl hwy.2
      rw [List.append_nil] at h2
      rw [List.append_cons acc y ys1]
      exact h2
  | x :: xs1, [], acc, hwx, hwy => by
      simp only [wfArr, Bool.and_eq_true] at hwx
      unfold diffElems
      have e1 : applyOp (Op.remove [Seg.idx acc.length]) (JVal.arr (acc ++ x :: xs1)) =
          some (JVal.arr (acc ++ xs1)) := by
        rw [applyOp_remove_one, removeChild, if_pos ?hlt,
          removeAt_append_length x acc xs1]
        case hlt =>
          rw [List.length_append, List.length_cons]
          omega
      rw [applyPatch_cons e1]
      exact rtElems xs1 [] acc hwx.2 hwy
  | x :: xs1, y :: ys1, acc, hwx, hwy => by
      simp only [wfArr, Bool.and_eq_true] at hwx hwy
      unfold diffElems
      have hdesc : descend (JVal.arr (acc ++ x :: xs1)) (Seg.idx acc.length) = some x := by
        show (acc ++ x :: xs1)[acc.length]? = some x
        exact getElem?_append_length x acc xs1
      have e1 : applyPatch ((diff x y).map (underSeg (Seg.idx acc.length)))
          (JVal.arr (acc ++ x :: xs1)) = some (JVal.arr (acc ++ y :: xs1)) := by
        rw [applyPatch_underSeg_some (diff_good x y) hdesc (rtJ x y hwx.1 hwy.1)]
        rw [setChild, if_pos ?h1, set_append_length x y acc xs1]
        case h1 =>
          rw [List.length_append, List.length_cons]
          omega
      rw [applyPatch_append_some e1]
      have hlen : acc.length + 1 = (acc ++ [y]).length := by simp
      rw [hlen, List.append_cons acc y xs1, List.append_cons acc y ys1]
      exact rtElems xs1 ys1 (acc ++ [y]) hwx.2 hwy.2
termination_by xs ys acc hwx hwy => sizeOf xs + sizeOf ys
decreasing_by
  all_goals simp_wf
  all_goals omega

end

/-- Configuration read once from the environment at startup
(src/src/app.py lines 13-16). -/
structure Config where
  configmap_name : String
  ca_bundle_filename : String
  ca_bundle_url : String
  ca_bundle_annotation : String
deriving DecidableEq, Repr

/-- Python exceptions the handler can raise. -/
inductive PyErr where
  | keyError : String → PyErr
  | typeError : PyErr
  | attributeError : PyErr
  | fetchError : Nat → PyErr
  | unicodeDecodeError : PyErr
  | apiError : Nat → PyErr
deriving DecidableEq, Repr

/-- Response of the remote bundle fetch (requests.get): HTTP status
and body bytes. -/
structure FetchResult where
  status : Nat
  content : List Nat
deriving DecidableEq, Repr

/-- A ConfigMap present in the cluster. -/
structure CM where
  ns : String
  name : String
  data : List (String × String)
deriving DecidableEq, Repr

/-- Cluster state: the collection of existing ConfigMaps. -/
abbrev Cluster := List CM

/-- Modelled from the spec: the cluster API read call (section 6,
get ConfigMap(namespace, name)) answered from the cluster state;
absent means a 404 ApiException. -/
def readCM (st : Cluster) (ns1 name1 : String) : Except Nat Unit :=
  if st.any (fun cm => cm.ns = ns1 && cm.name = name1) then .ok () else .error 404

/-- Modelled from the spec: the cluster API create call (section 6,
create ConfigMap(namespace, body)); duplicate creation is rejected
with a 409 ApiException. -/
def createCM (st : Cluster) (cm : CM) : Except Nat Cluster :=
  if st.any (fun c => c.ns = cm.ns && c.name = cm.name) then .error 409
  else .ok (st ++ [cm])

/-- ASCII decoding of the fetched bytes (bytes.decode in
create_configmap); non-ASCII content raises UnicodeDecodeError. -/
def decodeAscii (bs : List Nat) : Except PyErr String :=
  if bs.all (fun b => b < 128) then
    .ok (String.mk (bs.map (fun b => Char.ofNat b)))
  else .error .unicodeDecodeError

/-- Embedding of create_configmap (src/src/app.py lines 19-37): fetch
the bundle, fail unless the HTTP status is 200, decode as ASCII and
create the ConfigMap carrying a single data entry keyed by the
configured filename.  The fetch response and the cluster state stand
in for the external collaborators. -/
def create_configmap (cfg : Config) (r : FetchResult) (st : Cluster)
    (ns1 : String) : Except PyErr Cluster :=
  if r.status ≠ 200 then .error (.fetchError r.status)
  else
    match decodeAscii r.content with
    | .error e => .error e
    | .ok ca_bundle =>
        match createCM st ⟨ns1, cfg.configmap_name, [(cfg.ca_bundle_filename, ca_bundle)]⟩ with
        | .error s => .error (.apiError s)
        | .ok st1 => .ok st1

/-- Embedding of the provisioning block of mutate (src/src/app.py
lines 50-53): a read guarded create, where every ApiException raised
by the read is caught and answered by create_configmap.  The read
result is an explicit input so that both in-sync reads and stale or
failing reads can be expressed; the returned state is the cluster
after the call. -/
def ensureCM (cfg : Config) (readR : Except Nat Unit) (r : FetchResult)
    (st : Cluster) (ns1 : String) : Except PyErr Unit × Cluster :=
  match readR with
  | .ok () => (.ok (), st)
  | .error _ =>
      match create_configmap cfg r st ns1 with
      | .error e => (.error e, st)
      | .ok st1 => (.ok (), st1)

/-- The provisioning step with the read answered from the actual
cluster state (sequential, race-free execution). -/
def ensureSt (cfg : Config) (r : FetchResult) (st : Cluster) (ns1 : String) :
    Except PyErr Unit × Cluster :=
  ensureCM cfg (readCM st ns1 cfg.configmap_name) r st ns1

/-- The volume record built by mutate (src/src/app.py lines 55-61),
with keys canonically sorted. -/
def volumeJ (cfg : Config) : JVal :=
  .obj [("configMap", .obj [("defaultMode", .num 420), ("name", .str cfg.configmap_name)]),
        ("name", .str "ca-bundle")]

/-- The volume-mount record built by mutate (src/src/app.py lines
62-66). -/
def volumeMountJ (cfg : Config) : JVal :=
  .obj [("mountPath", .str ("/etc/ssl/certs/" ++ cfg.ca_bundle_filename)),
        ("name", .str "ca-bundle"),
        ("subPath", .str cfg.ca_bundle_filename)]

/-- Python d[k] indexing: KeyError when the key is absent, TypeError
when the value is not a mapping. -/
def getKey (d : JVal) (k : String) : Except PyErr JVal :=
  match d with
  | .obj fs =>
      match jlookup k fs with
      | some v => .ok v
      | none => .error (.keyError k)
  | _ => .error .typeError

/-- Python d.get(k): requires a mapping, returns an optional value. -/
def dictGet (d : JVal) (k : String) : Except PyErr (Option JVal) :=
  match d with
  | .obj fs => .ok (jlookup k fs)
  | _ => .error .attributeError

/-- Set a key of an object document (Python item assignment on the
canonical sorted representative). -/
def setKeyJ (d : JVal) (k : String) (v : JVal) : JVal :=
  match d with
  | .obj fs => .obj (sortedInsert k v fs)
  | _ => d

/-- The volumes step of mutate (src/src/app.py lines 68-71): append
the volume to spec.volumes when the key holds a sequence, create the
key as a singleton sequence when absent. -/
def stepVolumes (cfg : Config) (d : JVal) : Except PyErr JVal :=
  match getKey d "spec" with
  | .error e => .error e
  | .ok sp =>
      match sp with
      | .obj sfs =>
          match jlookup "volumes" sfs with
          | some (.arr vs) =>
              .ok (setKeyJ d "spec" (.obj (sortedInsert "volumes"
                (.arr (vs ++ [volumeJ cfg])) sfs)))
          | some _ => .error .attributeError
          | none =>
              .ok (setKeyJ d "spec" (.obj (sortedInsert "volumes"
                (.arr [volumeJ cfg]) sfs)))
      | _ => .error .typeError

/-- Append the volume mount to one container (src/src/app.py lines
75-78 and 81-84). -/
def addMount (cfg : Config) (c : JVal) : Except PyErr JVal :=
  match c with
  | .obj cfs =>
      match jlookup "volumeMounts" cfs with
      | some (.arr ms) =>
          .ok (.obj (sortedInsert "volumeMounts"
            (.arr (ms ++ [volumeMountJ cfg])) cfs))
      | some _ => .error .attributeError
      | none => .ok (.obj (sortedInsert "volumeMounts" (.arr [volumeMountJ cfg]) cfs))
  | _ => .error .typeError

/-- Mount injection over a container sequence. -/
def addMountAll (cfg : Config) : List JVal → Except PyErr (List JVal)
  | [] => .ok []
  | c :: cs =>
      match addMount cfg c with
      | .error e => .error e
      | .ok c1 =>
          match addMountAll cfg cs with
          | .error e => .error e
          | .ok cs1 => .ok (c1 :: cs1)

/-- The initContainers step of mutate (src/src/app.py lines 73-78):
guarded by a membership test, so an absent key is skipped. -/
def stepInitContainers (cfg : Config) (d : JVal) : Except PyErr JVal :=
  match getKey d "spec" with
  | .error e => .error e
  | .ok sp =>
      match sp with
      | .obj sfs =>
          match jlookup "initContainers" sfs with
          | none => .ok d
          | some (.arr cs) =>
              match addMountAll cfg cs with
              | .error e => .error e
              | .ok cs1 =>
                  .ok (setKeyJ d "spec" (.obj (sortedInsert "initContainers"
                    (.arr cs1) sfs)))
          | some _ => .error .typeError
      | _ => .error .typeError

/-- The containers step of mutate (src/src/app.py lines 80-84): the
source indexes spec.containers without a membership guard, so an
absent key raises KeyError. -/
def stepContainers (cfg : Config) (d : JVal) : Except PyErr JVal :=
  match getKey d "spec" with
  | .error e => .error e
  | .ok sp =>
      match sp with
      | .obj sfs =>
          match jlookup "containers" sfs with
          | none => .error (.keyError "containers")
          | some (.arr cs) =>
              match addMountAll cfg cs with
              | .error e => .error e
              | .ok cs1 =>
                  .ok (setKeyJ d "spec" (.obj (sortedInsert "containers"
                    (.arr cs1) sfs)))
          | some _ => .error .typeError
      | _ => .error .typeError

/-- The document mutation of a triggered request, in source order:
volumes, then initContainers, then containers. -/
def applyMutation (cfg : Config) (d : JVal) : Except PyErr JVal :=
  match stepVolumes cfg d with
  | .error e => .error e
  | .ok d1 =>
      match stepInitContainers cfg d1 with
      | .error e => .error e
      | .ok d2 => stepContainers cfg d2

/-- The trigger read of mutate (src/src/app.py line 45):
object.metadata.annotations.get(annotation), with Python indexing
semantics for the two fixed keys. -/
def triggerValue (cfg : Config) (d : JVal) : Except PyErr (Option JVal) :=
  match getKey d "metadata" with
  | .error e => .error e
  | .ok md =>
      match getKey md "annotations" with
      | .error e => .error e
      | .ok anns => dictGet anns cfg.ca_bundle_annotation

/-- The pure planning part of the mutate handler: the trigger check
followed by the document mutation, leaving the input untouched when
the annotation value is not the string true. -/
def planDoc (cfg : Config) (d : JVal) : Except PyErr JVal :=
  match triggerValue cfg d with
  | .error e => .error e
  | .ok v => if v = some (.str "true") then applyMutation cfg d else .ok d

/-- Escape a character for a JSON string literal (a model of
json.dumps escaping, covering the quote and the backslash). -/
def escChar (c : Char) : String :=
  if c = '\\' then "\\\\" else if c = '"' then "\\\"" else String.singleton c

/-- Escape a string for a JSON string literal. -/
def escapeStr (s : String) : String := String.join (s.data.map escChar)

-- JSON text rendering of a document (a model of json.dumps, as used
-- by str() on the patch object: comma-space and colon-space
-- separators).
mutual

def renderJ : JVal → String
  | .null => "null"
  | .bool b => if b then "true" else "false"
  | .num n => toString n
  | .str s => "\"" ++ escapeStr s ++ "\""
  | .arr l => "[" ++ renderList l ++ "]"
  | .obj fs => "\x7b" ++ renderFields fs ++ "\x7d"

def renderList : List JVal → String
  | [] => ""
  | [x] => renderJ x
  | x :: y :: rest => renderJ x ++ ", " ++ renderList (y :: rest)

def renderFields : List (String × JVal) → String
  | [] => ""
  | [(k, v)] => "\"" ++ escapeStr k ++ "\": " ++ renderJ v
  | (k, v) :: p :: rest =>
      "\"" ++ escapeStr k ++ "\": " ++ renderJ v ++ ", " ++ renderFields (p :: rest)

end

/-- Escape a character of a JSON pointer segment (RFC 6901). -/
def escPtrChar (c : Char) : String :=
  if c = '~' then "~0" else if c = '/' then "~1" else String.singleton c

/-- Render one path segment of a JSON pointer. -/
def renderSeg : Seg → String
  | .key k => "/" ++ String.join (k.data.map escPtrChar)
  | .idx i => "/" ++ toString i

/-- Render a path as a JSON pointer. -/
def renderPath (p : List Seg) : String := String.join (p.map renderSeg)

/-- A patch operation as a JSON document. -/
def opToJVal : Op → JVal
  | .add p v => .obj [("op", .str "add"), ("path", .str (renderPath p)), ("value", v)]
  | .remove p => .obj [("op", .str "remove"), ("path", .str (renderPath p))]
  | .replace p v =>
      .obj [("op", .str "replace"), ("path", .str (renderPath p)), ("value", v)]

/-- The base64 alphabet. -/
def b64Alphabet : String :=
  "ABCDEFGHIJKLMNOPQRSTUVWXYZabcdefghijklmnopqrstuvwxyz0123456789+/"

/-- One base64 digit. -/
def b64Char (n : Nat) : Char := b64Alphabet.data.getD n 'A'

/-- Standard base64 with padding over a byte list
(base64.b64encode). -/
def base64Encode : List Nat → String
  | [] => ""
  | [b1] => String.mk [b64Char (b1 / 4), b64Char (b1 % 4 * 16)] ++ "=="
  | [b1, b2] =>
      String.mk [b64Char (b1 / 4), b64Char (b1 % 4 * 16 + b2 / 16),
        b64Char (b2 % 16 * 4)] ++ "="
  | b1 :: b2 :: b3 :: rest =>
      String.mk [b64Char (b1 / 4), b64Char (b1 % 4 * 16 + b2 / 16),
        b64Char (b3 / 64 + b2 % 16 * 4), b64Char (b3 % 64)] ++ base64Encode rest

/-- Byte view of the rendered patch text (a model of str.encode; the
rendered text is ASCII so code points coincide with bytes). -/
def strBytes (s : String) : List Nat := s.data.map Char.toNat

/-- The transported patch: base64 of the JSON text of the operation
list (src/src/app.py line 93). -/
def encodePatch (ops : List Op) : String :=
  base64Encode (strBytes (renderJ (.arr (ops.map opToJVal))))

/-- The response part of the AdmissionReview envelope produced by
mutate (src/src/app.py lines 87-96). -/
structure AdmissionResponse where
  allowed : Bool
  uid : String
  patch : String
  patchType : String
deriving DecidableEq, Repr

/-- Assemble the response envelope: always allowed, uid echoed,
encoded patch, fixed patch type. -/
def mkResponse (uid : String) (ops : List Op) : AdmissionResponse :=
  ⟨true, uid, encodePatch ops, "JSONPatch"⟩

/-- Embedding of the mutate endpoint (src/src/app.py lines 40-96), as
a function of the request uid and object and of the responses of the
two external collaborators (remote fetch, cluster state).  A Python
exception surfaces as an error value: the Flask layer would answer
such a request with an HTTP 500 and no AdmissionReview body. -/
def mutateHandler (cfg : Config) (uid : String) (obj : JVal) (r : FetchResult)
    (st : Cluster) : Except PyErr (AdmissionResponse × Cluster) :=
  match triggerValue cfg obj with
  | .error e => .error e
  | .ok v =>
      if v = some (.str "true") then
        match getKey obj "metadata" with
        | .error e => .error e
        | .ok md =>
            match getKey md "namespace" with
            | .error e => .error e
            | .ok nsv =>
                match nsv with
                | .str ns1 =>
                    match ensureSt cfg r st ns1 with
                    | (.error e, _) => .error e
                    | (.ok (), st1) =>
                        match applyMutation cfg obj with
                        | .error e => .error e
                        | .ok d1 => .ok (mkResponse uid (diff obj d1), st1)
                | _ => .error .typeError
      else .ok (mkResponse uid (diff obj obj), st)

theorem wfJ_of_jlookup {k : String} :
    ∀ {fs : List (String × JVal)} {v : JVal}, wfFields fs = true →
      jlookup k fs = some v → wfJ v = true
  | [], v, _, h => by simp [jlookup] at h
  | (k1, w) :: rest, v, hf, h => by
      simp only [wfFields, Bool.and_eq_true] at hf
      rw [jlookup] at h
      by_cases he : k1 = k
      · rw [if_pos he] at h
        injection h with h
        rw [← h]
        exact hf.1
      · rw [if_neg he] at h
        exact wfJ_of_jlookup hf.2 h

theorem wfArr_append_one {x : JVal} (hx : wfJ x = true) :
    ∀ {vs : List JVal}, wfArr vs = true → wfArr (vs ++ [x]) = true
  | [], _ => by simp [wfArr, hx]
  | v :: vs, h => by
      simp only [wfArr, Bool.and_eq_true] at h
      simp only [List.cons_append, wfArr, Bool.and_eq_true]
      exact ⟨h.1, wfArr_append_one hx h.2⟩

theorem wfJ_obj_insert {fs : List (String × JVal)} {k : String} {v : JVal}
    (hf : wfJ (.obj fs) = true) (hv : wfJ v = true) :
    wfJ (.obj (sortedInsert k v fs)) = true := by
  simp only [wfJ, Bool.and_eq_true] at hf ⊢
  refine ⟨(sortedKeys_iff _).mpr (pairwise_sortedInsert ((sortedKeys_iff _).mp hf.1)),
    wfFields_sortedInsert hv hf.2⟩

theorem wfJ_arr_eq (l : List JVal) : wfJ (.arr l) = wfArr l := by
  simp only [wfJ]

theorem wfJ_obj_eq (fs : List (String × JVal)) :
    wfJ (.obj fs) = (sortedKeys (fs.map Prod.fst) && wfFields fs) := by
  simp only [wfJ]

theorem wfJ_str_eq (s : String) : wfJ (.str s) = true := by
  simp only [wfJ]

theorem wfJ_num_eq (n : Int) : wfJ (.num n) = true := by
  simp only [wfJ]

theorem wfArr_cons_eq (x : JVal) (xs : List JVal) :
    wfArr (x :: xs) = (wfJ x && wfArr xs) := by
  simp only [wfArr]

theorem wfArr_nil_eq : wfArr [] = true := by
  simp only [wfArr]

theorem wfFields_cons_eq (k : String) (v : JVal) (fs : List (String × JVal)) :
    wfFields ((k, v) :: fs) = (wfJ v && wfFields fs) := by
  simp only [wfFields]

theorem wfFields_nil_eq : wfFields [] = true := by
  simp only [wfFields]

theorem wfJ_volumeJ (cfg : Config) : wfJ (volumeJ cfg) = true := by
  rw [volumeJ, wfJ_obj_eq]
  rw [wfFields_cons_eq, wfFields_cons_eq, wfFields_nil_eq]
  rw [wfJ_obj_eq, wfFields_cons_eq, wfFields_cons_eq, wfFields_nil_eq]
  rw [wfJ_str_eq, wfJ_str_eq, wfJ_num_eq]
  simp only [List.map_cons, List.map_nil, Bool.and_true, Bool.true_and, Bool.and_eq_true]
  exact ⟨by decide, by decide⟩

theorem wfJ_volumeMountJ (cfg : Config) : wfJ (volumeMountJ cfg) = true := by
  rw [volumeMountJ, wfJ_obj_eq]
  rw [wfFields_cons_eq, wfFields_cons_eq, wfFields_cons_eq, wfFields_nil_eq]
  rw [wfJ_str_eq, wfJ_str_eq, wfJ_str_eq]
  simp only [List.map_cons, List.map_nil, Bool.and_true, Bool.true_and]
  decide

theorem wfJ_singleton_mount (cfg : Config) : wfJ (.arr [volumeMountJ cfg]) = true := by
  rw [wfJ_arr_eq, wfArr_cons_eq, wfJ_volumeMountJ cfg, wfArr_nil_eq]
  rfl

/-- The per-container transform performed by the mount step, as a
total function. -/
def withMount (cfg : Config) (c : JVal) : JVal :=
  match c with
  | .obj cfs =>
      match jlookup "volumeMounts" cfs with
      | some (.arr ms) =>
          .obj (sortedInsert "volumeMounts" (.arr (ms ++ [volumeMountJ cfg])) cfs)
      | _ => .obj (sortedInsert "volumeMounts" (.arr [volumeMountJ cfg]) cfs)
  | _ => c

/-- The existing mounts of a container (empty when absent). -/
def mountsOf (c : JVal) : List JVal :=
  match c with
  | .obj cfs =>
      match jlookup "volumeMounts" cfs with
      | some (.arr ms) => ms
      | _ => []
  | _ => []

theorem addMount_ok {cfg : Config} {c c1 : JVal} (h : addMount cfg c = .ok c1) :
    c1 = withMount cfg c ∧ ∃ cfs, c = .obj cfs := by
  cases c with
  | obj cfs =>
      refine ⟨?_, cfs, rfl⟩
      cases hm : jlookup "volumeMounts" cfs with
      | none =>
          simp only [addMount, hm] at h
          simp only [withMount, hm]
          injection h with h2
          exact h2.symm
      | some mv =>
          cases mv with
          | arr ms =>
              simp only [addMount, hm] at h
              simp only [withMount, hm]
              injection h with h2
              exact h2.symm
          | null => simp [addMount, hm] at h
          | bool b => simp [addMount, hm] at h
          | num n => simp [addMount, hm] at h
          | str s => simp [addMount, hm] at h
          | obj o => simp [addMount, hm] at h
  | null => simp [addMount] at h
  | bool b => simp [addMount] at h
  | num n => simp [addMount] at h
  | str s => simp [addMount] at h
  | arr l => simp [addMount] at h

theorem addMountAll_ok {cfg : Config} :
    ∀ {cs cs1 : List JVal}, addMountAll cfg cs = .ok cs1 →
      cs1 = cs.map (withMount cfg) ∧ ∀ c ∈ cs, ∃ cfs, c = .obj cfs
  | [], cs1, h => by
      simp only [addMountAll] at h
      injection h with h
      exact ⟨h.symm, by simp⟩
  | c :: cs, cs1, h => by
      cases h1 : addMount cfg c with
      | error e => simp [addMountAll, h1] at h
      | ok c1 =>
          cases h2 : addMountAll cfg cs with
          | error e => simp [addMountAll, h1, h2] at h
          | ok cs2 =>
              simp only [addMountAll, h1, h2] at h
              obtain ⟨he1, hobj1⟩ := addMount_ok h1
              obtain ⟨he2, hobj2⟩ := addMountAll_ok h2
              injection h with h
              constructor
              · rw [← h, List.map_cons, ← he1, ← he2]
              · intro x hx
                rcases List.mem_cons.mp hx with rfl | hx
                · exact hobj1
                · exact hobj2 x hx

theorem wfJ_withMount {cfg : Config} {c : JVal} (hc : wfJ c = true) :
    wfJ (withMount cfg c) = true := by
  cases c with
  | obj cfs =>
      cases hm : jlookup "volumeMounts" cfs with
      | none =>
          simp only [withMount, hm]
          exact wfJ_obj_insert hc (wfJ_singleton_mount cfg)
      | some mv =>
          cases mv with
          | arr ms =>
              simp only [withMount, hm]
              refine wfJ_obj_insert hc ?_
              rw [wfJ_obj_eq, Bool.and_eq_true] at hc
              have hms : wfJ (.arr ms) = true := wfJ_of_jlookup hc.2 hm
              rw [wfJ_arr_eq] at hms ⊢
              exact wfArr_append_one (wfJ_volumeMountJ cfg) hms
          | null =>
              simp only [withMount, hm]
              exact wfJ_obj_insert hc (wfJ_singleton_mount cfg)
          | bool b =>
              simp only [withMount, hm]
              exact wfJ_obj_insert hc (wfJ_singleton_mount cfg)
          | num n =>
              simp only [withMount, hm]
              exact wfJ_obj_insert hc (wfJ_singleton_mount cfg)
          | str s =>
              simp only [withMount, hm]
              exact wfJ_obj_insert hc (wfJ_singleton_mount cfg)
          | obj o =>
              simp only [withMount, hm]
              exact wfJ_obj_insert hc (wfJ_singleton_mount cfg)
  | null => exact hc
  | bool b => exact hc
  | num n => exact hc
  | str s => exact hc
  | arr l => exact hc

theorem mountsOf_withMount {cfg : Config} {c : JVal} {cfs : List (String × JVal)}
    (hc : c = .obj cfs) :
    mountsOf (withMount cfg c) = mountsOf c ++ [volumeMountJ cfg] := by
  subst hc
  cases hm : jlookup "volumeMounts" cfs with
  | none =>
      simp only [withMount, mountsOf, hm, jlookup_sortedInsert_self, List.nil_append]
  | some mv =>
      cases mv with
      | arr ms =>
          simp only [withMount, mountsOf, hm, jlookup_sortedInsert_self]
      | null =>
          simp only [withMount, mountsOf, hm, jlookup_sortedInsert_self, List.nil_append]
      | bool b =>
          simp only [withMount, mountsOf, hm, jlookup_sortedInsert_self, List.nil_append]
      | num n =>
          simp only [withMount, mountsOf, hm, jlookup_sortedInsert_self, List.nil_append]
      | str s =>
          simp only [withMount, mountsOf, hm, jlookup_sortedInsert_self, List.nil_append]
      | obj o =>
          simp only [withMount, mountsOf, hm, jlookup_sortedInsert_self, List.nil_append]

theorem stepVolumes_ok {cfg : Config} {d d1 : JVal} (h : stepVolumes cfg d = .ok d1) :
    ∃ dfs sfs, d = .obj dfs ∧ jlookup "spec" dfs = some (.obj sfs) ∧
      ((∃ vs, jlookup "volumes" sfs = some (.arr vs) ∧
          d1 = .obj (sortedInsert "spec"
            (.obj (sortedInsert "volumes" (.arr (vs ++ [volumeJ cfg])) sfs)) dfs)) ∨
        (jlookup "volumes" sfs = none ∧
          d1 = .obj (sortedInsert "spec"
            (.obj (sortedInsert "volumes" (.arr [volumeJ cfg]) sfs)) dfs))) := by
  cases d with
  | obj dfs =>
      cases hs : jlookup "spec" dfs with
      | none => simp [stepVolumes, getKey, hs] at h
      | some sp =>
          cases sp with
          | obj sfs =>
              cases hv : jlookup "volumes" sfs with
              | none =>
                  simp only [stepVolumes, getKey, hs, hv, setKeyJ, Except.ok.injEq] at h
                  exact ⟨dfs, sfs, rfl, hs, Or.inr ⟨hv, h.symm⟩⟩
              | some vv =>
                  cases vv with
                  | arr vs =>
                      simp only [stepVolumes, getKey, hs, hv, setKeyJ,
                        Except.ok.injEq] at h
                      exact ⟨dfs, sfs, rfl, hs, Or.inl ⟨vs, hv, h.symm⟩⟩
                  | null => simp [stepVolumes, getKey, hs, hv] at h
                  | bool b => simp [stepVolumes, getKey, hs, hv] at h
                  | num n => simp [stepVolumes, getKey, hs, hv] at h
                  | str s => simp [stepVolumes, getKey, hs, hv] at h
                  | obj o => simp [stepVolumes, getKey, hs, hv] at h
          | null => simp [stepVolumes, getKey, hs] at h
          | bool b => simp [stepVolumes, getKey, hs] at h
          | num n => simp [stepVolumes, getKey, hs] at h
          | str s => simp [stepVolumes, getKey, hs] at h
          | arr l => simp [stepVolumes, getKey, hs] at h
  | null => simp [stepVolumes, getKey] at h
  | bool b => simp [stepVolumes, getKey] at h
  | num n => simp [stepVolumes, getKey] at h
  | str s => simp [stepVolumes, getKey] at h
  | arr l => simp [stepVolumes, getKey] at h

theorem stepInitContainers_ok {cfg : Config} {d d2 : JVal}
    (h : stepInitContainers cfg d = .ok d2) :
    ∃ dfs sfs, d = .obj dfs ∧ jlookup "spec" dfs = some (.obj sfs) ∧
      ((jlookup "initContainers" sfs = none ∧ d2 = d) ∨
        (∃ cs, jlookup "initContainers" sfs = some (.arr cs) ∧
          addMountAll cfg cs = .ok (cs.map (withMount cfg)) ∧
          (∀ c ∈ cs, ∃ cfs, c = .obj cfs) ∧
          d2 = .obj (sortedInsert "spec"
            (.obj (sortedInsert "initContainers"
              (.arr (cs.map (withMount cfg))) sfs)) dfs))) := by
  cases d with
  | obj dfs =>
      cases hs : jlookup "spec" dfs with
      | none => simp [stepInitContainers, getKey, hs] at h
      | some sp =>
          cases sp with
          | obj sfs =>
              cases hv : jlookup "initContainers" sfs with
              | none =>
                  simp only [stepInitContainers, getKey, hs, hv, Except.ok.injEq] at h
                  exact ⟨dfs, sfs, rfl, hs, Or.inl ⟨hv, h.symm⟩⟩
              | some vv =>
                  cases vv with
                  | arr cs =>
                      cases hm : addMountAll cfg cs with
                      | error e =>
                          simp [stepInitContainers, getKey, hs, hv, hm] at h
                      | ok cs1 =>
                          simp only [stepInitContainers, getKey, hs, hv, hm, setKeyJ,
                            Except.ok.injEq] at h
                          obtain ⟨hmap, hobj⟩ := addMountAll_ok hm
                          subst hmap
                          exact ⟨dfs, sfs, rfl, hs, Or.inr ⟨cs, hv, hm, hobj, h.symm⟩⟩
                  | null => simp [stepInitContainers, getKey, hs, hv] at h
                  | bool b => simp [stepInitContainers, getKey, hs, hv] at h
                  | num n => simp [stepInitContainers, getKey, hs, hv] at h
                  | str s => simp [stepInitContainers, getKey, hs, hv] at h
                  | obj o => simp [stepInitContainers, getKey, hs, hv] at h
          | null => simp [stepInitContainers, getKey, hs] at h
          | bool b => simp [stepInitContainers, getKey, hs] at h
          | num n => simp [stepInitContainers, getKey, hs] at h
          | str s => simp [stepInitContainers, getKey, hs] at h
          | arr l => simp [stepInitContainers, getKey, hs] at h
  | null => simp [stepInitContainers, getKey] at h
  | bool b => simp [stepInitContainers, getKey] at h
  | num n => simp [stepInitContainers, getKey] at h
  | str s => simp [stepInitContainers, getKey] at h
  | arr l => simp [stepInitContainers, getKey] at h

theorem stepContainers_ok {cfg : Config} {d d3 : JVal}
    (h : stepContainers cfg d = .ok d3) :
    ∃ dfs sfs cs, d = .obj dfs ∧ jlookup "spec" dfs = some (.obj sfs) ∧
      jlookup "containers" sfs = some (.arr cs) ∧
      addMountAll cfg cs = .ok (cs.map (withMount cfg)) ∧
      (∀ c ∈ cs, ∃ cfs, c = .obj cfs) ∧
      d3 = .obj (sortedInsert "spec"
        (.obj (sortedInsert "containers" (.arr (cs.map (withMount cfg))) sfs)) dfs) := by
  cases d with
  | obj dfs =>
      cases hs : jlookup "spec" dfs with
      | none => simp [stepContainers, getKey, hs] at h
      | some sp =>
          cases sp with
          | obj sfs =>
              cases hv : jlookup "containers" sfs with
              | none => simp [stepContainers, getKey, hs, hv] at h
              | some vv =>
                  cases vv with
                  | arr cs =>
                      cases hm : addMountAll cfg cs with
                      | error e => simp [stepContainers, getKey, hs, hv, hm] at h
                      | ok cs1 =>
                          simp only [stepContainers, getKey, hs, hv, hm, setKeyJ,
                            Except.ok.injEq] at h
                          obtain ⟨hmap, hobj⟩ := addMountAll_ok hm
                          subst hmap
                          exact ⟨dfs, sfs, cs, rfl, hs, hv, hm, hobj, h.symm⟩
                  | null => simp [stepContainers, getKey, hs, hv] at h
                  | bool b => simp [stepContainers, getKey, hs, hv] at h
                  | num n => simp [stepContainers, getKey, hs, hv] at h
                  | str s => simp [stepContainers, getKey, hs, hv] at h
                  | obj o => simp [stepContainers, getKey, hs, hv] at h
          | null => simp [stepContainers, getKey, hs] at h
          | bool b => simp [stepContainers, getKey, hs] at h
          | num n => simp [stepContainers, getKey, hs] at h
          | str s => simp [stepContainers, getKey, hs] at h
          | arr l => simp [stepContainers, getKey, hs] at h
  | null => simp [stepContainers, getKey] at h
  | bool b => simp [stepContainers, getKey] at h
  | num n => simp [stepContainers, getKey] at h
  | str s => simp [stepContainers, getKey] at h
  | arr l => simp [stepContainers, getKey] at h

/-- The spec.volumes sequence of a document, when present as a
sequence. -/
def volumesOf (d : JVal) : Option (List JVal) :=
  match d with
  | .obj dfs =>
      match jlookup "spec" dfs with
      | some (.obj sfs) =>
          match jlookup "volumes" sfs with
          | some (.arr vs) => some vs
          | _ => none
      | _ => none
  | _ => none

/-- The spec.containers sequence of a document, when present as a
sequence. -/
def containersOf (d : JVal) : Option (List JVal) :=
  match d with
  | .obj dfs =>
      match jlookup "spec" dfs with
      | some (.obj sfs) =>
          match jlookup "containers" sfs with
          | some (.arr cs) => some cs
          | _ => none
      | _ => none
  | _ => none

/-- The spec.initContainers sequence of a document, when present as a
sequence. -/
def initContainersOf (d : JVal) : Option (List JVal) :=
  match d with
  | .obj dfs =>
      match jlookup "spec" dfs with
      | some (.obj sfs) =>
          match jlookup "initContainers" sfs with
          | some (.arr cs) => some cs
          | _ => none
      | _ => none
  | _ => none

theorem wfArr_map_withMount {cfg : Config} :
    ∀ {cs : List JVal}, wfArr cs = true → wfArr (cs.map (withMount cfg)) = true
  | [], _ => rfl
  | c :: cs, h => by
      rw [wfArr_cons_eq, Bool.and_eq_true] at h
      rw [List.map_cons, wfArr_cons_eq, Bool.and_eq_true]
      exact ⟨wfJ_withMount h.1, wfArr_map_withMount h.2⟩

theorem stepVolumes_wf {cfg : Config} {d d1 : JVal} (hw : wfJ d = true)
    (h : stepVolumes cfg d = .ok d1) : wfJ d1 = true := by
  obtain ⟨dfs, sfs, rfl, hs, hcase⟩ := stepVolumes_ok h
  have hw2 := hw
  rw [wfJ_obj_eq, Bool.and_eq_true] at hw2
  have hsfs : wfJ (.obj sfs) = true := wfJ_of_jlookup hw2.2 hs
  rcases hcase with ⟨vs, hv, rfl⟩ | ⟨hv, rfl⟩
  · refine wfJ_obj_insert hw (wfJ_obj_insert hsfs ?_)
    have hsfs2 := hsfs
    rw [wfJ_obj_eq, Bool.and_eq_true] at hsfs2
    have hvs : wfJ (.arr vs) = true := wfJ_of_jlookup hsfs2.2 hv
    rw [wfJ_arr_eq] at hvs ⊢
    exact wfArr_append_one (wfJ_volumeJ cfg) hvs
  · refine wfJ_obj_insert hw (wfJ_obj_insert hsfs ?_)
    rw [wfJ_arr_eq, wfArr_cons_eq, wfJ_volumeJ cfg, wfArr_nil_eq]
    rfl

theorem stepInitContainers_wf {cfg : Config} {d d2 : JVal} (hw : wfJ d = true)
    (h : stepInitContainers cfg d = .ok d2) : wfJ d2 = true := by
  obtain ⟨dfs, sfs, rfl, hs, hcase⟩ := stepInitContainers_ok h
  have hw2 := hw
  rw [wfJ_obj_eq, Bool.and_eq_true] at hw2
  have hsfs : wfJ (.obj sfs) = true := wfJ_of_jlookup hw2.2 hs
  rcases hcase with ⟨_, rfl⟩ | ⟨cs, hv, _, _, rfl⟩
  · exact hw
  · refine wfJ_obj_insert hw (wfJ_obj_insert hsfs ?_)
    have hsfs2 := hsfs
    rw [wfJ_obj_eq, Bool.and_eq_true] at hsfs2
    have hcs : wfJ (.arr cs) = true := wfJ_of_jlookup hsfs2.2 hv
    rw [wfJ_arr_eq] at hcs ⊢
    exact wfArr_map_withMount hcs

theorem stepContainers_wf {cfg : Config} {d d3 : JVal} (hw : wfJ d = true)
    (h : stepContainers cfg d = .ok d3) : wfJ d3 = true := by
  obtain ⟨dfs, sfs, cs, rfl, hs, hv, _, _, rfl⟩ := stepContainers_ok h
  have hw2 := hw
  rw [wfJ_obj_eq, Bool.and_eq_true] at hw2
  have hsfs : wfJ (.obj sfs) = true := wfJ_of_jlookup hw2.2 hs
  refine wfJ_obj_insert hw (wfJ_obj_insert hsfs ?_)
  have hsfs2 := hsfs
  rw [wfJ_obj_eq, Bool.and_eq_true] at hsfs2
  have hcs : wfJ (.arr cs) = true := wfJ_of_jlookup hsfs2.2 hv
  rw [wfJ_arr_eq] at hcs ⊢
  exact wfArr_map_withMount hcs

theorem applyMutation_wf {cfg : Config} {d d' : JVal} (hw : wfJ d = true)
    (h : applyMutation cfg d = .ok d') : wfJ d' = true := by
  cases h1 : stepVolumes cfg d with
  | error e => simp [applyMutation, h1] at h
  | ok d1 =>
      cases h2 : stepInitContainers cfg d1 with
      | error e => simp [applyMutation, h1, h2] at h
      | ok d2 =>
          simp only [applyMutation, h1, h2] at h
          exact stepContainers_wf (stepInitContainers_wf (stepVolumes_wf hw h1) h2) h

theorem applyMutation_shape {cfg : Config} {d d' : JVal}
    (h : applyMutation cfg d = .ok d') :
    volumesOf d' = some ((volumesOf d).getD [] ++ [volumeJ cfg]) ∧
    (∃ cs, containersOf d = some cs ∧
      containersOf d' = some (cs.map (withMount cfg)) ∧
      ∀ c ∈ cs, ∃ cfs, c = .obj cfs) ∧
    initContainersOf d' = (initContainersOf d).map (fun l => l.map (withMount cfg)) := by
  have nVC : ("volumes" : String) ≠ "containers" := by decide
  have nVI : ("volumes" : String) ≠ "initContainers" := by decide
  have nCV : ("containers" : String) ≠ "volumes" := by decide
  have nCI : ("containers" : String) ≠ "initContainers" := by decide
  have nIC : ("initContainers" : String) ≠ "containers" := by decide
  have nIV : ("initContainers" : String) ≠ "volumes" := by decide
  cases h1 : stepVolumes cfg d with
  | error e => simp [applyMutation, h1] at h
  | ok d1 =>
      cases h2 : stepInitContainers cfg d1 with
      | error e => simp [applyMutation, h1, h2] at h
      | ok d2 =>
          simp only [applyMutation, h1, h2] at h
          obtain ⟨dfs, sfs, rfl, hs, hcase1⟩ := stepVolumes_ok h1
          rcases hcase1 with ⟨vs, hv, rfl⟩ | ⟨hv, rfl⟩ <;>
            obtain ⟨dfs1, sfs1, hd1, hs1, hcase2⟩ := stepInitContainers_ok h2
          · -- volumes present
            injection hd1 with hdfs1
            subst hdfs1
            rw [jlookup_sortedInsert_self] at hs1
            injection hs1 with hs1
            injection hs1 with hs1
            subst hs1
            rcases hcase2 with ⟨hvi, rfl⟩ | ⟨cs0, hvi, hma0, hobj0, rfl⟩ <;>
              obtain ⟨dfs2, sfs2, cs, hd2, hs2, hcv, hma, hobj, rfl⟩ := stepContainers_ok h
            · -- initContainers absent
              injection hd2 with hdfs2
              subst hdfs2
              rw [jlookup_sortedInsert_self] at hs2
              injection hs2 with hs2
              injection hs2 with hs2
              subst hs2
              rw [jlookup_sortedInsert_ne nCV] at hcv
              rw [jlookup_sortedInsert_ne nIV] at hvi
              refine ⟨?_, ⟨cs, ?_, ?_, hobj⟩, ?_⟩
              · simp only [volumesOf, hs, hv, jlookup_sortedInsert_self,
                  jlookup_sortedInsert_ne nVC, Option.getD_some]
              · simp only [containersOf, hs, hcv]
              · simp only [containersOf, jlookup_sortedInsert_self]
              · simp only [initContainersOf, hs, hvi, jlookup_sortedInsert_self,
                  jlookup_sortedInsert_ne nIC, jlookup_sortedInsert_ne nIV,
                  Option.map_none']
            · -- initContainers present
              injection hd2 with hdfs2
              subst hdfs2
              rw [jlookup_sortedInsert_self] at hs2
              injection hs2 with hs2
              injection hs2 with hs2
              subst hs2
              rw [jlookup_sortedInsert_ne nCI, jlookup_sortedInsert_ne nCV] at hcv
              rw [jlookup_sortedInsert_ne nIV] at hvi
              refine ⟨?_, ⟨cs, ?_, ?_, hobj⟩, ?_⟩
              · simp only [volumesOf, hs, hv, jlookup_sortedInsert_self,
                  jlookup_sortedInsert_ne nVC, jlookup_sortedInsert_ne nVI,
                  Option.getD_some]
              · simp only [containersOf, hs, hcv]
              · simp only [containersOf, jlookup_sortedInsert_self]
              · simp only [initContainersOf, hs, hvi, jlookup_sortedInsert_self,
                  jlookup_sortedInsert_ne nIC, Option.map_some']
          · -- volumes absent
            injection hd1 with hdfs1
            subst hdfs1
            rw [jlookup_sortedInsert_self] at hs1
            injection hs1 with hs1
            injection hs1 with hs1
            subst hs1
            rcases hcase2 with ⟨hvi, rfl⟩ | ⟨cs0, hvi, hma0, hobj0, rfl⟩ <;>
              obtain ⟨dfs2, sfs2, cs, hd2, hs2, hcv, hma, hobj, rfl⟩ := stepContainers_ok h
            · injection hd2 with hdfs2
              subst hdfs2
              rw [jlookup_sortedInsert_self] at hs2
              injection hs2 with hs2
              injection hs2 with hs2
              subst hs2
              rw [jlookup_sortedInsert_ne nCV] at hcv
              rw [jlookup_sortedInsert_ne nIV] at hvi
              refine ⟨?_, ⟨cs, ?_, ?_, hobj⟩, ?_⟩
              · simp only [volumesOf, hs, hv, jlookup_sortedInsert_self,
                  jlookup_sortedInsert_ne nVC, Option.getD_none, List.nil_append]
              · simp only [containersOf, hs, hcv]
              · simp only [containersOf, jlookup_sortedInsert_self]
              · simp only [initContainersOf, hs, hvi, jlookup_sortedInsert_self,
                  jlookup_sortedInsert_ne nIC, jlookup_sortedInsert_ne nIV,
                  Option.map_none']
            · injection hd2 with hdfs2
              subst hdfs2
              rw [jlookup_sortedInsert_self] at hs2
              injection hs2 with hs2
              injection hs2 with hs2
              subst hs2
              rw [jlookup_sortedInsert_ne nCI, jlookup_sortedInsert_ne nCV] at hcv
              rw [jlookup_sortedInsert_ne nIV] at hvi
              refine ⟨?_, ⟨cs, ?_, ?_, hobj⟩, ?_⟩
              · simp only [volumesOf, hs, hv, jlookup_sortedInsert_self,
                  jlookup_sortedInsert_ne nVC, jlookup_sortedInsert_ne nVI,
                  Option.getD_none, List.nil_append]
              · simp only [containersOf, hs, hcv]
              · simp only [containersOf, jlookup_sortedInsert_self]
              · simp only [initContainersOf, hs, hvi, jlookup_sortedInsert_self,
                  jlookup_sortedInsert_ne nIC, Option.map_some']

instance {ε α : Type} [DecidableEq ε] [DecidableEq α] : DecidableEq (Except ε α) :=
  fun a b =>
    match a, b with
    | .ok x, .ok y =>
        if h : x = y then isTrue (by rw [h]) else isFalse (fun he => h (by injection he))
    | .error x, .error y =>
        if h : x = y then isTrue (by rw [h]) else isFalse (fun he => h (by injection he))
    | .ok _, .error _ => isFalse (fun he => Except.noConfusion he)
    | .error _, .ok _ => isFalse (fun he => Except.noConfusion he)

/-- A concrete configuration used by the witnesses below. -/
def cfgEx : Config := ⟨"ca-bundle-cm", "ca.crt", "http://pki.example/ca.crt", "inject-ca"⟩

/-- A concrete triggered pod document with one container. -/
def podEx : JVal :=
  .obj [("metadata", .obj [("annotations", .obj [("inject-ca", .str "true")]),
                           ("namespace", .str "ns1")]),
        ("spec", .obj [("containers", .arr [.obj [("name", .str "app")]])])]

/-- A concrete untriggered pod document (annotation value in the wrong
case). -/
def podOff : JVal :=
  .obj [("metadata", .obj [("annotations", .obj [("inject-ca", .str "True")]),
                           ("namespace", .str "ns1")]),
        ("spec", .obj [("containers", .arr [.obj [("name", .str "app")]])])]

/-- A concrete triggered pod document whose spec has no containers. -/
def podNoC : JVal :=
  .obj [("metadata", .obj [("annotations", .obj [("inject-ca", .str "true")]),
                           ("namespace", .str "ns1")]),
        ("spec", .obj [])]

/-- C1 (counterexample): a read that fails with a 403 permission
ApiException is not propagated: the handler catches it, fetches the
bundle and creates the ConfigMap, returning success — a failed
existence check is masked as create. -/
theorem c1_counterexample :
    ensureCM cfgEx (.error 403) ⟨200, [99, 97]⟩ [] "ns1" =
      (.ok (), [⟨"ns1", "ca-bundle-cm", [("ca.crt", "ca")]⟩]) := by
  decide

/-- C1 (amended): the provisioning step does not distinguish not-found
from other read failures: EVERY ApiException raised by the read —
permission denied included — is caught and answered by fetching the
bundle and creating the ConfigMap; with a successful ASCII fetch and
an absent ConfigMap the call returns success and creates cluster
state rather than propagating a lookup failure. -/
theorem c1_read_failure_amended (cfg : Config) (e : Nat) (r : FetchResult)
    (st : Cluster) (ns1 bundle : String)
    (hr : r.status = 200) (hd : decodeAscii r.content = .ok bundle)
    (habs : st.any (fun c => c.ns = ns1 && c.name = cfg.configmap_name) = false) :
    ensureCM cfg (.error e) r st ns1 =
      (.ok (), st ++ [⟨ns1, cfg.configmap_name, [(cfg.ca_bundle_filename, bundle)]⟩]) := by
  simp [ensureCM, create_configmap, hr, hd, createCM, habs]

/-- C1 (amended) at a concrete input: a 403 read failure with a good
fetch over an empty cluster succeeds and creates the ConfigMap. -/
theorem c1_read_failure_amended_witness :
    ((200 : Nat) = 200 ∧ decodeAscii [99, 97] = .ok "ca" ∧
      ([] : Cluster).any (fun c => c.ns = "ns1" && c.name = cfgEx.configmap_name) = false) ∧
    ensureCM cfgEx (.error 403) ⟨200, [99, 97]⟩ [] "ns1" =
      (.ok (), [] ++ [⟨"ns1", cfgEx.configmap_name, [(cfgEx.ca_bundle_filename, "ca")]⟩]) :=
  ⟨⟨rfl, by decide, by decide⟩,
    c1_read_failure_amended cfgEx 403 ⟨200, [99, 97]⟩ [] "ns1" "ca" rfl (by decide) (by decide)⟩

/-- C3 (counterexample): a create that fails because the ConfigMap
already exists (read raced and answered not-found while the ConfigMap
is present) propagates the 409 ApiException instead of being treated
as success. -/
theorem c3_counterexample :
    ensureCM cfgEx (.error 404) ⟨200, [99, 97]⟩ [⟨"ns1", "ca-bundle-cm", []⟩] "ns1" =
      (.error (.apiError 409), [⟨"ns1", "ca-bundle-cm", []⟩]) := by
  decide

/-- C3 (amended): sequential provisioning is idempotent — after a
successful call, a second call for the same namespace reads the
existing ConfigMap, performs no create, raises nothing and leaves the
state unchanged, which then holds exactly one ConfigMap of the
configured name in the namespace; the already-exists case on create is
NOT swallowed (see the counterexample). -/
theorem c3_sequential_idempotent (cfg : Config) (r : FetchResult) (st st1 : Cluster)
    (ns1 : String)
    (hcnt : (st.filter (fun c => c.ns = ns1 && c.name = cfg.configmap_name)).length ≤ 1)
    (h1 : ensureSt cfg r st ns1 = (.ok (), st1)) :
    ensureSt cfg r st1 ns1 = (.ok (), st1) ∧
    (st1.filter (fun c => c.ns = ns1 && c.name = cfg.configmap_name)).length = 1 := by
  by_cases hp : st.any (fun c => c.ns = ns1 && c.name = cfg.configmap_name) = true
  · have he : ensureSt cfg r st ns1 = (.ok (), st) := by
      simp [ensureSt, readCM, hp, ensureCM]
    rw [he] at h1
    have hst : st = st1 := congrArg Prod.snd h1
    subst hst
    refine ⟨he, ?_⟩
    obtain ⟨x, hx, hpx⟩ := List.any_eq_true.mp hp
    have hmem : x ∈ st.filter (fun c => c.ns = ns1 && c.name = cfg.configmap_name) :=
      List.mem_filter.mpr ⟨hx, hpx⟩
    have hne := List.ne_nil_of_mem hmem
    have hlen := List.length_pos.mpr hne
    omega
  · have hp2 : st.any (fun c => c.ns = ns1 && c.name = cfg.configmap_name) = false := by
      simpa using hp
    by_cases hst : r.status = 200
    · cases hdec : decodeAscii r.content with
      | error e =>
          simp [ensureSt, readCM, hp2, ensureCM, create_configmap, hst, hdec] at h1
      | ok bundle =>
          have hEn : ensureSt cfg r st ns1 =
              (.ok (), st ++ [⟨ns1, cfg.configmap_name,
                [(cfg.ca_bundle_filename, bundle)]⟩]) := by
            simp [ensureSt, readCM, hp2, ensureCM, create_configmap, hst, hdec,
              createCM]
          rw [hEn] at h1
          have hst1 : st ++ [⟨ns1, cfg.configmap_name,
              [(cfg.ca_bundle_filename, bundle)]⟩] = st1 := congrArg Prod.snd h1
          subst hst1
          constructor
          · simp [ensureSt, readCM, ensureCM, List.any_append]
          · rw [List.filter_append]
            have hf : st.filter (fun c => c.ns = ns1 && c.name = cfg.configmap_name)
                = [] := by
              rw [List.filter_eq_nil_iff]
              intro a ha
              exact List.any_eq_false.mp hp2 a ha
            rw [hf]
            simp
    · simp [ensureSt, readCM, hp2, ensureCM, create_configmap, hst] at h1

/-- C3 (amended) at a concrete input: a first call over the empty
cluster creates the ConfigMap, the second call is a no-op success and
exactly one ConfigMap of that name exists. -/
theorem c3_sequential_idempotent_witness :
    (([] : Cluster).filter
        (fun c => c.ns = "ns1" && c.name = cfgEx.configmap_name)).length ≤ 1 ∧
    ensureSt cfgEx ⟨200, [99, 97]⟩ [] "ns1" =
      (.ok (), [⟨"ns1", "ca-bundle-cm", [("ca.crt", "ca")]⟩]) ∧
    (ensureSt cfgEx ⟨200, [99, 97]⟩ [⟨"ns1", "ca-bundle-cm", [("ca.crt", "ca")]⟩] "ns1" =
        (.ok (), [⟨"ns1", "ca-bundle-cm", [("ca.crt", "ca")]⟩]) ∧
      (List.filter (fun c => c.ns = "ns1" && c.name = cfgEx.configmap_name)
          ([⟨"ns1", "ca-bundle-cm", [("ca.crt", "ca")]⟩] : Cluster)).length = 1) :=
  ⟨by decide, by decide,
    c3_sequential_idempotent cfgEx ⟨200, [99, 97]⟩ []
      [⟨"ns1", "ca-bundle-cm", [("ca.crt", "ca")]⟩] "ns1" (by decide) (by decide)⟩

/-- C6: when the remote bundle fetch answers with a non-success HTTP
status, provisioning fails with the fetch error and the cluster state
is unchanged — no ConfigMap is created, the create call is never
reached. -/
theorem c6_fetch_failure (cfg : Config) (e : Nat) (r : FetchResult) (st : Cluster)
    (ns1 : String) (hns : ¬ (200 ≤ r.status ∧ r.status < 300)) :
    ensureCM cfg (.error e) r st ns1 = (.error (.fetchError r.status), st) := by
  have h1 : r.status ≠ 200 := by omega
  simp [ensureCM, create_configmap, h1]

/-- C6 at a concrete input: an HTTP 500 fetch makes provisioning fail
and creates nothing. -/
theorem c6_fetch_failure_witness :
    ¬ (200 ≤ (500 : Nat) ∧ (500 : Nat) < 300) ∧
    ensureCM cfgEx (.error 404) ⟨500, []⟩ [] "ns1" =
      (.error (.fetchError 500), []) :=
  ⟨by decide, c6_fetch_failure cfgEx 404 ⟨500, []⟩ [] "ns1" (by decide)⟩

/-- C4: the mutation gate is strict string equality — whenever the
trigger annotation reads as anything other than the exact string
"true" (an absent key, a different case, a boolean), the diff of the
untouched copy against the original is the empty patch sequence and
the handler answers allowed with that empty patch and an unchanged
cluster. -/
theorem c4_strict_gate (cfg : Config) (uid : String) (obj : JVal) (r : FetchResult)
    (st : Cluster) (v : Option JVal)
    (htrig : triggerValue cfg obj = .ok v) (hne : v ≠ some (.str "true")) :
    diff obj obj = [] ∧
    mutateHandler cfg uid obj r st = .ok (⟨true, uid, encodePatch [], "JSONPatch"⟩, st) := by
  refine ⟨diff_self obj, ?_⟩
  simp only [mutateHandler, htrig, if_neg hne, mkResponse, diff_self]

/-- C4 at a concrete input: the annotation value "True" (wrong case)
produces the empty patch and an allowed response. -/
theorem c4_strict_gate_witness :
    (triggerValue cfgEx podOff = .ok (some (.str "True")) ∧
      (some (JVal.str "True")) ≠ some (JVal.str "true")) ∧
    (diff podOff podOff = [] ∧
      mutateHandler cfgEx "u" podOff ⟨200, []⟩ [] =
        .ok (⟨true, "u", encodePatch [], "JSONPatch"⟩, [])) :=
  ⟨⟨by decide, by decide⟩,
    c4_strict_gate cfgEx "u" podOff ⟨200, []⟩ [] (some (.str "True"))
      (by decide) (by decide)⟩

/-- C5 (counterexample): a triggered object whose spec lacks
containers makes the planner raise KeyError "containers" instead of
skipping the container-mount step. -/
theorem c5_counterexample : planDoc cfgEx podNoC = .error (.keyError "containers") := by
  decide

/-- C5 (amended): for a triggered object in which spec.containers is
absent, the container-mount step is NOT skipped: once the earlier
volumes and initContainers steps succeed, the handler raises
KeyError "containers" (the source indexes spec.containers without the
membership guard it uses for initContainers). -/
theorem c5_missing_containers_raises (cfg : Config) (d d1 d2 : JVal)
    (sfs : List (String × JVal))
    (htrig : triggerValue cfg d = .ok (some (.str "true")))
    (h1 : stepVolumes cfg d = .ok d1)
    (h2 : stepInitContainers cfg d1 = .ok d2)
    (hs : getKey d2 "spec" = .ok (.obj sfs))
    (hc : jlookup "containers" sfs = none) :
    planDoc cfg d = .error (.keyError "containers") := by
  simp [planDoc, htrig, applyMutation, h1, h2, stepContainers, hs, hc]

/-- C5 (amended) at a concrete input: the triggered pod without
containers raises KeyError "containers" through the full planner. -/
theorem c5_missing_containers_raises_witness :
    (triggerValue cfgEx podNoC = .ok (some (.str "true")) ∧
      jlookup "containers"
        [("volumes", JVal.arr [volumeJ cfgEx])] = none) ∧
    planDoc cfgEx podNoC = .error (.keyError "containers") :=
  ⟨⟨by decide, by decide⟩,
    c5_missing_containers_raises cfgEx podNoC
      (.obj [("metadata", .obj [("annotations", .obj [("inject-ca", .str "true")]),
                                ("namespace", .str "ns1")]),
             ("spec", .obj [("volumes", .arr [volumeJ cfgEx])])])
      (.obj [("metadata", .obj [("annotations", .obj [("inject-ca", .str "true")]),
                                ("namespace", .str "ns1")]),
             ("spec", .obj [("volumes", .arr [volumeJ cfgEx])])])
      [("volumes", .arr [volumeJ cfgEx])]
      (by decide) (by decide) (by decide) (by decide) (by decide)⟩

/-- C7: the planner never mutates its input — in this pure embedding
the input document is immutable by construction, and whenever the
trigger annotation is not exactly the string "true" the planner
returns the input document itself unchanged. -/
theorem c7_plan_identity (cfg : Config) (d : JVal) (v : Option JVal)
    (htrig : triggerValue cfg d = .ok v) (hne : v ≠ some (.str "true")) :
    planDoc cfg d = .ok d := by
  simp only [planDoc, htrig, if_neg hne]

/-- C7 at a concrete input: the planner returns the untriggered pod
unchanged. -/
theorem c7_plan_identity_witness :
    (triggerValue cfgEx podOff = .ok (some (.str "True")) ∧
      (some (JVal.str "True")) ≠ some (JVal.str "true")) ∧
    planDoc cfgEx podOff = .ok podOff :=
  ⟨⟨by decide, by decide⟩,
    c7_plan_identity cfgEx podOff (some (.str "True")) (by decide) (by decide)⟩

/-- C10: presence of metadata.annotations is an implicit precondition
of the mutate endpoint — an object without the metadata key, or whose
metadata object lacks the annotations key, makes the handler raise a
KeyError before any AdmissionReview response is produced, even though
no mutation would apply to such an object. -/
theorem c10_missing_metadata_raises (cfg : Config) (uid : String) (r : FetchResult)
    (st : Cluster) :
    (∀ dfs : List (String × JVal), jlookup "metadata" dfs = none →
      mutateHandler cfg uid (.obj dfs) r st = .error (.keyError "metadata")) ∧
    (∀ dfs mfs : List (String × JVal), jlookup "metadata" dfs = some (.obj mfs) →
      jlookup "annotations" mfs = none →
      mutateHandler cfg uid (.obj dfs) r st = .error (.keyError "annotations")) := by
  constructor
  · intro dfs h
    simp [mutateHandler, triggerValue, getKey, h]
  · intro dfs mfs h1 h2
    simp [mutateHandler, triggerValue, getKey, h1, h2]

/-- C10 at concrete inputs: the empty object raises
KeyError "metadata" and an object with empty metadata raises
KeyError "annotations". -/
theorem c10_missing_metadata_raises_witness :
    (jlookup "metadata" ([] : List (String × JVal)) = none ∧
      mutateHandler cfgEx "u" (.obj []) ⟨200, []⟩ [] = .error (.keyError "metadata")) ∧
    (jlookup "metadata" [("metadata", JVal.obj [])] = some (.obj []) ∧
      jlookup "annotations" ([] : List (String × JVal)) = none ∧
      mutateHandler cfgEx "u" (.obj [("metadata", JVal.obj [])]) ⟨200, []⟩ [] =
        .error (.keyError "annotations")) :=
  ⟨⟨by decide,
      (c10_missing_metadata_raises cfgEx "u" ⟨200, []⟩ []).1 [] (by decide)⟩,
    ⟨by decide, by decide,
      (c10_missing_metadata_raises cfgEx "u" ⟨200, []⟩ []).2 [("metadata", JVal.obj [])]
        [] (by decide) (by decide)⟩⟩

/-- The mutated form of podEx. -/
def podExM : JVal :=
  .obj [("metadata", .obj [("annotations", .obj [("inject-ca", .str "true")]),
                           ("namespace", .str "ns1")]),
        ("spec", .obj
          [("containers", .arr
             [.obj [("name", .str "app"),
                    ("volumeMounts", .arr
                      [.obj [("mountPath", .str "/etc/ssl/certs/ca.crt"),
                             ("name", .str "ca-bundle"),
                             ("subPath", .str "ca.crt")]])]]),
           ("volumes", .arr
             [.obj [("configMap", .obj [("defaultMode", .num 420),
                                        ("name", .str "ca-bundle-cm")]),
                    ("name", .str "ca-bundle")]])])]

/-- C2: for a triggered object (annotation exactly the string "true"),
when the mutation succeeds, applying the produced patch to the
original document reproduces the mutated document exactly; the
mutated document's spec.volumes is the original sequence (empty when
the field was absent) with exactly the ca-bundle volume appended at
the end; its containers are the original containers, each with
exactly the ca-bundle mount appended at the end of its volumeMounts
(created as a singleton when absent); initContainers are treated the
same when present and stay absent otherwise; and the added volume and
mount are the fixed records named ca-bundle referencing the configured
ConfigMap with default mode 420 and mounted at
/etc/ssl/certs/<filename> with subPath <filename>. -/
theorem c2_triggered_patch (cfg : Config) (d d' : JVal)
    (hw : wfJ d = true)
    (htrig : triggerValue cfg d = .ok (some (.str "true")))
    (hok : applyMutation cfg d = .ok d') :
    planDoc cfg d = .ok d' ∧
    applyPatch (diff d d') d = some d' ∧
    volumesOf d' = some ((volumesOf d).getD [] ++ [volumeJ cfg]) ∧
    (∃ cs, containersOf d = some cs ∧
      containersOf d' = some (cs.map (withMount cfg)) ∧
      ∀ c ∈ cs, mountsOf (withMount cfg c) = mountsOf c ++ [volumeMountJ cfg]) ∧
    initContainersOf d' = (initContainersOf d).map (fun l => l.map (withMount cfg)) ∧
    volumeJ cfg = .obj [("configMap", .obj [("defaultMode", .num 420),
        ("name", .str cfg.configmap_name)]), ("name", .str "ca-bundle")] ∧
    volumeMountJ cfg = .obj
      [("mountPath", .str ("/etc/ssl/certs/" ++ cfg.ca_bundle_filename)),
        ("name", .str "ca-bundle"), ("subPath", .str cfg.ca_bundle_filename)] := by
  obtain ⟨hvol, ⟨cs, hc1, hc2, hobj⟩, hinit⟩ := applyMutation_shape hok
  refine ⟨?_, ?_, hvol, ⟨cs, hc1, hc2, fun c hc => ?_⟩, hinit, rfl, rfl⟩
  · simp [planDoc, htrig, hok]
  · exact rtJ d d' hw (applyMutation_wf hw hok)
  · obtain ⟨cfs, hcfs⟩ := hobj c hc
    exact mountsOf_withMount hcfs

/-- C2 at a concrete input: the triggered single-container pod is
patched into its mutated form, volumes gain exactly the ca-bundle
entry and the container gains exactly the ca-bundle mount. -/
theorem c2_triggered_patch_witness :
    wfJ podEx = true ∧
    triggerValue cfgEx podEx = .ok (some (.str "true")) ∧
    applyMutation cfgEx podEx = .ok podExM ∧
    applyPatch (diff podEx podExM) podEx = some podExM ∧
    volumesOf podExM = some ((volumesOf podEx).getD [] ++ [volumeJ cfgEx]) ∧
    containersOf podExM =
      some ([JVal.obj [("name", JVal.str "app")]].map (withMount cfgEx)) := by
  refine ⟨by decide, by decide, by decide, ?_, ?_, by decide⟩
  · exact (c2_triggered_patch cfgEx podEx podExM (by decide) (by decide)
      (by decide)).2.1
  · exact (c2_triggered_patch cfgEx podEx podExM (by decide) (by decide)
      (by decide)).2.2.1

/-- C8: the patch produced by the encoder round-trips — for every
well-formed input document, applying the decoded patch (the diff of
the original against the planner's result) to the original document
reproduces the planner's modified document exactly. -/
theorem c8_roundtrip (cfg : Config) (d d' : JVal) (hw : wfJ d = true)
    (hplan : planDoc cfg d = .ok d') :
    applyPatch (diff d d') d = some d' := by
  cases htv : triggerValue cfg d with
  | error e => simp [planDoc, htv] at hplan
  | ok v =>
      by_cases hv : v = some (JVal.str "true")
      · simp only [planDoc, htv] at hplan
        rw [if_pos hv] at hplan
        exact rtJ d d' hw (applyMutation_wf hw hplan)
      · simp only [planDoc, htv] at hplan
        rw [if_neg hv] at hplan
        injection hplan with hplan
        subst hplan
        rw [diff_self]
        rfl

/-- C8 at a concrete input: the patch for the triggered pod applies
back to the original and reproduces the planner's output. -/
theorem c8_roundtrip_witness :
    wfJ podEx = true ∧
    planDoc cfgEx podEx = .ok podExM ∧
    applyPatch (diff podEx podExM) podEx = some podExM :=
  ⟨by decide, by decide, c8_roundtrip cfgEx podEx podExM (by decide) (by decide)⟩

/-- C9: the planner and encoder are deterministic — two runs of the
handler on the identical request with identical collaborator responses
produce the same response, in particular byte-identical base64-encoded
patch strings. -/
theorem c9_determinism (cfg : Config) (uid : String) (obj : JVal) (r : FetchResult)
    (st : Cluster) (res1 res2 : AdmissionResponse) (st1 st2 : Cluster)
    (h1 : mutateHandler cfg uid obj r st = .ok (res1, st1))
    (h2 : mutateHandler cfg uid obj r st = .ok (res2, st2)) :
    res1.patch = res2.patch ∧ res1 = res2 := by
  rw [h1] at h2
  injection h2 with h2
  have h3 := congrArg Prod.fst h2
  exact ⟨congrArg AdmissionResponse.patch h3, h3⟩

/-- C9 at a concrete input: two identical runs produce the same
encoded patch. -/
theorem c9_determinism_witness :
    mutateHandler cfgEx "u" podOff ⟨200, []⟩ [] =
      .ok (⟨true, "u", "W10=", "JSONPatch"⟩, []) ∧
    (⟨true, "u", "W10=", "JSONPatch"⟩ : AdmissionResponse).patch =
      (⟨true, "u", "W10=", "JSONPatch"⟩ : AdmissionResponse).patch := by
  have ht : triggerValue cfgEx podOff = .ok (some (.str "True")) := by decide
  have h1 : mutateHandler cfgEx "u" podOff ⟨200, []⟩ [] =
      .ok (⟨true, "u", "W10=", "JSONPatch"⟩, []) := by
    simp only [mutateHandler, ht]
    rw [if_neg (by decide : ¬ (some (JVal.str "True") = some (JVal.str "true")))]
    rw [mkResponse, diff_self]
    have he : encodePatch [] = "W10=" := by decide
    rw [he]
  exact ⟨h1, (c9_determinism cfgEx "u" podOff ⟨200, []⟩ []
    ⟨true, "u", "W10=", "JSONPatch"⟩ ⟨true, "u", "W10=", "JSONPatch"⟩ [] [] h1 h1).1⟩
